import Mathlib

/-!
# default-security-group-tightener: a shallow embedding of `main.go`

The program walks a list of regions.  In each region it lists the security
groups, keeps the IDs of the ones named "default", lists the rules of each of
them and revokes the rules one by one (or only logs them when `dryRun` is set).

The embedding is a deterministic interpreter of the Go control flow against an
abstract EC2 provider: a state machine over an arbitrary state type, so that a
reply may depend on everything that was called before.

* Every API call is recorded, with its reply, in a trace; the lines written by
  `fmt.Printf` and the messages handed to the `log` package are recorded too.
* The pointer fields of the SDK types (`*string`, `*bool`) are options.  A
  dereference of a nil pointer ends the run with `Status.nilDeref`, and
  `log.Fatalf` ends it with `Status.fatal`.
* Each of the two `for { ... }` loops takes a bound `fuel` on the number of its
  iterations and ends with `Status.outOfFuel` when the bound is used up.  The
  bound is only a cut-off: a run that ended before it is the same under any
  larger bound (`runInRegion_fuel_stable`), and a run cut off by it is a first
  part of the run under a larger bound (`runInRegion_trace_mono`).
* The `context.Context` is `context.Background()` and is never cancelled; it is
  left out.
-/

namespace Tightener

/-! ## The parts of the EC2 SDK data model used by the program -/

/-- Go type `types.SecurityGroup`: the three `*string` fields the program reads. -/
structure SecurityGroup where
  GroupId : Option String
  GroupName : Option String
  VpcId : Option String
  deriving DecidableEq, Repr

/-- Go type `types.SecurityGroupRule`: a `*string` ID and a `*bool` direction. -/
structure SecurityGroupRule where
  SecurityGroupRuleId : Option String
  IsEgress : Option Bool
  deriving DecidableEq, Repr

/-- Go type `types.Filter`. -/
structure Filter where
  Name : Option String
  Values : List String
  deriving DecidableEq, Repr

/-- Go type `ec2.DescribeSecurityGroupsInput` (continuation token only). -/
structure DescribeSecurityGroupsInput where
  NextToken : Option String
  deriving DecidableEq, Repr

/-- Go type `ec2.DescribeSecurityGroupsOutput`. -/
structure DescribeSecurityGroupsOutput where
  SecurityGroups : List SecurityGroup
  NextToken : Option String
  deriving DecidableEq, Repr

/-- Go type `ec2.DescribeSecurityGroupRulesInput`. -/
structure DescribeSecurityGroupRulesInput where
  Filters : List Filter
  NextToken : Option String
  deriving DecidableEq, Repr

/-- Go type `ec2.DescribeSecurityGroupRulesOutput`. -/
structure DescribeSecurityGroupRulesOutput where
  SecurityGroupRules : List SecurityGroupRule
  NextToken : Option String
  deriving DecidableEq, Repr

/-- Go types `ec2.RevokeSecurityGroupIngressInput` and
`ec2.RevokeSecurityGroupEgressInput`: the two fields the program sets. -/
structure RevokeInput where
  GroupId : Option String
  SecurityGroupRuleIds : List String
  deriving DecidableEq, Repr

/-- The reply of an API call: the Go pair `(output, err)`, the error being
represented by its message. -/
inductive Reply (α : Type) where
  | ok (out : α)
  | error (err : String)
  deriving DecidableEq, Repr

/-- One API call issued through the EC2 client of a region, with its reply. -/
inductive Event where
  | DescribeSecurityGroups (region : String) (input : DescribeSecurityGroupsInput)
      (reply : Reply DescribeSecurityGroupsOutput)
  | DescribeSecurityGroupRules (region : String) (input : DescribeSecurityGroupRulesInput)
      (reply : Reply DescribeSecurityGroupRulesOutput)
  | RevokeSecurityGroupIngress (region : String) (input : RevokeInput) (reply : Reply Unit)
  | RevokeSecurityGroupEgress (region : String) (input : RevokeInput) (reply : Reply Unit)
  deriving DecidableEq, Repr

/-- The external collaborators: configuration loading and the four EC2
operations, each a transition of a provider state of type `σ`. -/
structure Provider (σ : Type) where
  LoadDefaultConfig : String → σ → Option String × σ
  DescribeSecurityGroups :
    String → DescribeSecurityGroupsInput → σ → Reply DescribeSecurityGroupsOutput × σ
  DescribeSecurityGroupRules :
    String → DescribeSecurityGroupRulesInput → σ → Reply DescribeSecurityGroupRulesOutput × σ
  RevokeSecurityGroupIngress : String → RevokeInput → σ → Reply Unit × σ
  RevokeSecurityGroupEgress : String → RevokeInput → σ → Reply Unit × σ

/-! ## The interpreter state -/

/-- How a piece of the program ended. -/
inductive Status where
  | ok
  | fatal (msg : String)
  | nilDeref
  | outOfFuel
  deriving DecidableEq, Repr

/-- The local variables of `runInRegion` that live across its loops. -/
structure Vars where
  groupIDs : List String
  ingressRuleIDs : List String
  egressRuleIDs : List String
  deriving DecidableEq, Repr

/-- The result of running a piece of the program: its status, the provider
state and the locals it leaves, and what it emitted: the API calls, the lines
written by `fmt.Printf` and the messages handed to the `log` package (without
the time stamp the package puts in front). -/
structure Out (σ : Type) where
  status : Status
  env : σ
  vars : Vars
  trace : List Event
  stdout : List String
  log : List String

variable {σ : Type}

/-- A piece that does nothing. -/
def Out.ret (env : σ) (v : Vars) : Out σ :=
  { status := .ok, env := env, vars := v, trace := [], stdout := [], log := [] }

/-- A piece that stops the run with `st`. -/
def Out.stop (st : Status) (env : σ) (v : Vars) : Out σ :=
  { status := st, env := env, vars := v, trace := [], stdout := [], log := [] }

/-- `log.Printf`. -/
def Out.logf (msg : String) (env : σ) (v : Vars) : Out σ :=
  { status := .ok, env := env, vars := v, trace := [], stdout := [], log := [msg] }

/-- `log.Fatalf`: the message is logged and the process exits. -/
def Out.fatalf (msg : String) (env : σ) (v : Vars) : Out σ :=
  { status := .fatal msg, env := env, vars := v, trace := [], stdout := [], log := [msg] }

/-- `fmt.Printf`. -/
def Out.printf (line : String) (env : σ) (v : Vars) : Out σ :=
  { status := .ok, env := env, vars := v, trace := [], stdout := [line], log := [] }

/-- An API call: the event is recorded and the provider state replaced. -/
def Out.call (ev : Event) (env : σ) (v : Vars) : Out σ :=
  { status := .ok, env := env, vars := v, trace := [ev], stdout := [], log := [] }

/-- Sequential composition: `k` runs only when `a` ended normally. -/
def Out.andThen (a : Out σ) (k : σ → Vars → Out σ) : Out σ :=
  match a.status with
  | .ok =>
    let b := k a.env a.vars
    { status := b.status, env := b.env, vars := b.vars,
      trace := a.trace ++ b.trace, stdout := a.stdout ++ b.stdout, log := a.log ++ b.log }
  | _ => a

/-! ## The program -/

/-- The request of `runInRegion` for the rules of one group. -/
def rulesInput (groupID : String) (nextToken : Option String) :
    DescribeSecurityGroupRulesInput :=
  { Filters := [{ Name := some "group-id", Values := [groupID] }], NextToken := nextToken }

/-- The request of `runInRegion` revoking one rule of one group. -/
def revokeInput (groupID ruleID : String) : RevokeInput :=
  { GroupId := some groupID, SecurityGroupRuleIds := [ruleID] }

/-- The summary line of `runInRegion`. -/
def summaryLine (ingress egress : Nat) (region : String) : String :=
  "Revoked " ++ toString ingress ++ " ingress and " ++ toString egress ++
    " egress rules in region " ++ region ++ "...\n"

/-- Body of `for _, sg := range groups.SecurityGroups` (main.go 46-51). -/
def groupBody (sg : SecurityGroup) (env : σ) (v : Vars) : Out σ :=
  match sg.GroupName with
  | none => Out.stop .nilDeref env v
  | some name =>
    if name = "default" then
      match sg.GroupId with
      | none => Out.stop .nilDeref env v
      | some groupId =>
        match sg.VpcId with
        | none => Out.stop .nilDeref env { v with groupIDs := v.groupIDs ++ [groupId] }
        | some vpcId =>
          Out.logf ("found default security group in VPC " ++ vpcId ++ ": " ++ groupId ++
              " - \"" ++ name ++ "\"\n")
            env { v with groupIDs := v.groupIDs ++ [groupId] }
    else Out.ret env v

/-- The loop `for _, sg := range groups.SecurityGroups`. -/
def rangeGroups : List SecurityGroup → σ → Vars → Out σ
  | [], env, v => Out.ret env v
  | sg :: rest, env, v => (groupBody sg env v).andThen (rangeGroups rest)

/-- The loop `for { ... }` over the pages of security groups (main.go 40-56),
run for at most `fuel` iterations. -/
def groupLoop (P : Provider σ) (region : String) : Nat → σ → Vars → Out σ
  | 0, env, v => Out.stop .outOfFuel env v
  | fuel + 1, env, v =>
    let input : DescribeSecurityGroupsInput := { NextToken := none }
    let r := P.DescribeSecurityGroups region input env
    (Out.call (.DescribeSecurityGroups region input r.1) r.2 v).andThen fun env v =>
      match r.1 with
      | .error err => Out.fatalf ("failed to describe security groups: " ++ err) env v
      | .ok groups =>
        (rangeGroups groups.SecurityGroups env v).andThen fun env v =>
          let nextToken := groups.NextToken
          match nextToken with
          | none => Out.ret env v
          | some _ => groupLoop P region fuel env v

/-- Body of `for _, rule := range rules.SecurityGroupRules` (main.go 76-104). -/
def ruleBody (P : Provider σ) (dryRun : Bool) (region groupID : String)
    (rule : SecurityGroupRule) (env : σ) (v : Vars) : Out σ :=
  if rule.IsEgress = some true then
    match rule.SecurityGroupRuleId with
    | none => Out.stop .nilDeref env v
    | some ruleId =>
      let v := { v with egressRuleIDs := v.egressRuleIDs ++ [ruleId] }
      if dryRun then
        Out.logf ("dryRun: would have deleted egress rule " ++ ruleId ++
          " from security group " ++ groupID ++ "\n") env v
      else
        (Out.logf ("deleting egress rule " ++ ruleId ++ " from security group " ++
            groupID ++ "\n") env v).andThen fun env v =>
          let r := P.RevokeSecurityGroupEgress region (revokeInput groupID ruleId) env
          (Out.call (.RevokeSecurityGroupEgress region (revokeInput groupID ruleId) r.1)
              r.2 v).andThen fun env v =>
            match r.1 with
            | .error err => Out.fatalf ("error deleting rule: " ++ err ++ "\n") env v
            | .ok _ => Out.ret env v
  else
    match rule.SecurityGroupRuleId with
    | none => Out.stop .nilDeref env v
    | some ruleId =>
      let v := { v with ingressRuleIDs := v.ingressRuleIDs ++ [ruleId] }
      if dryRun then
        Out.logf ("dryRun: would have deleted ingress rule " ++ ruleId ++
          " from security group " ++ groupID ++ "\n") env v
      else
        (Out.logf ("deleting ingress rule " ++ ruleId ++ " from security group " ++
            groupID ++ "\n") env v).andThen fun env v =>
          let r := P.RevokeSecurityGroupIngress region (revokeInput groupID ruleId) env
          (Out.call (.RevokeSecurityGroupIngress region (revokeInput groupID ruleId) r.1)
              r.2 v).andThen fun env v =>
            match r.1 with
            | .error err => Out.fatalf ("error deleting rule: " ++ err ++ "\n") env v
            | .ok _ => Out.ret env v

/-- The loop `for _, rule := range rules.SecurityGroupRules`. -/
def rangeRules (P : Provider σ) (dryRun : Bool) (region groupID : String) :
    List SecurityGroupRule → σ → Vars → Out σ
  | [], env, v => Out.ret env v
  | rule :: rest, env, v =>
    (ruleBody P dryRun region groupID rule env v).andThen
      (rangeRules P dryRun region groupID rest)

/-- The loop `for { ... }` over the pages of rules of one group (main.go
61-110), run for at most `fuel` iterations.  `nextToken` is declared inside the
loop body, so it is nil when the request is built. -/
def ruleLoop (P : Provider σ) (dryRun : Bool) (region groupID : String) :
    Nat → σ → Vars → Out σ
  | 0, env, v => Out.stop .outOfFuel env v
  | fuel + 1, env, v =>
    let nextToken : Option String := none
    let input := rulesInput groupID nextToken
    let r := P.DescribeSecurityGroupRules region input env
    (Out.call (.DescribeSecurityGroupRules region input r.1) r.2 v).andThen fun env v =>
      match r.1 with
      | .error err => Out.fatalf ("failed to describe security group rules: " ++ err) env v
      | .ok rules =>
        (rangeRules P dryRun region groupID rules.SecurityGroupRules env v).andThen
          fun env v =>
            let nextToken := rules.NextToken
            match nextToken with
            | none => Out.ret env v
            | some _ => ruleLoop P dryRun region groupID fuel env v

/-- The loop `for _, groupID := range groupIDs` (main.go 60-111). -/
def rangeGroupIDs (P : Provider σ) (fuel : Nat) (dryRun : Bool) (region : String) :
    List String → σ → Vars → Out σ
  | [], env, v => Out.ret env v
  | groupID :: rest, env, v =>
    (ruleLoop P dryRun region groupID fuel env v).andThen
      (rangeGroupIDs P fuel dryRun region rest)

/-- Go function `runInRegion`.  Each of its `for { ... }` loops may take up to
`fuel` iterations. -/
def runInRegion (P : Provider σ) (fuel : Nat) (dryRun : Bool) (region : String)
    (env : σ) : Out σ :=
  let v : Vars := { groupIDs := [], ingressRuleIDs := [], egressRuleIDs := [] }
  (Out.logf ("running in region: " ++ region ++ "\n") env v).andThen fun env v =>
    let c := P.LoadDefaultConfig region env
    (match c.1 with
      | some err => Out.fatalf ("unable to load SDK config: " ++ err) c.2 v
      | none => Out.ret c.2 v).andThen fun env v =>
    (groupLoop P region fuel env v).andThen fun env v =>
    (rangeGroupIDs P fuel dryRun region v.groupIDs env v).andThen fun env v =>
    Out.printf (summaryLine v.ingressRuleIDs.length v.egressRuleIDs.length region) env v

/-- Go function `run`. -/
def run (P : Provider σ) (fuel : Nat) (dryRun : Bool) : List String → σ → Out σ
  | [], env => Out.ret env { groupIDs := [], ingressRuleIDs := [], egressRuleIDs := [] }
  | region :: rest, env =>
    (runInRegion P fuel dryRun region env).andThen fun env _ => run P fuel dryRun rest env

/-- The region list of Go function `main`. -/
def regions : List String := ["us-east-1", "eu-west-1", "eu-west-2"]

/-- Go function `main`: `dryRun` is false. -/
def main (P : Provider σ) (fuel : Nat) (env : σ) : Out σ :=
  run P fuel false regions env

/-! ## Reading a trace -/

/-- A listing call (`DescribeSecurityGroups` or `DescribeSecurityGroupRules`). -/
def Event.isListing : Event → Bool
  | .DescribeSecurityGroups _ _ _ => true
  | .DescribeSecurityGroupRules _ _ _ => true
  | _ => false

/-- A mutating call (`RevokeSecurityGroupIngress` or `RevokeSecurityGroupEgress`). -/
def Event.isRevoke : Event → Bool
  | .RevokeSecurityGroupIngress _ _ _ => true
  | .RevokeSecurityGroupEgress _ _ _ => true
  | _ => false

/-- The continuation token carried by the request of a listing call. -/
def Event.requestToken : Event → Option String
  | .DescribeSecurityGroups _ input _ => input.NextToken
  | .DescribeSecurityGroupRules _ input _ => input.NextToken
  | _ => none

/-- The continuation token carried by the reply of a listing call. -/
def Event.replyToken : Event → Option String
  | .DescribeSecurityGroups _ _ (.ok out) => out.NextToken
  | .DescribeSecurityGroupRules _ _ (.ok out) => out.NextToken
  | _ => none

/-- The reply of the call is an error. -/
def Event.failed : Event → Bool
  | .DescribeSecurityGroups _ _ (.error _) => true
  | .DescribeSecurityGroupRules _ _ (.error _) => true
  | .RevokeSecurityGroupIngress _ _ (.error _) => true
  | .RevokeSecurityGroupEgress _ _ (.error _) => true
  | _ => false

/-- The message of the `log.Fatalf` that follows a failed call. -/
def Event.fatalMsg : Event → String
  | .DescribeSecurityGroups _ _ (.error err) => "failed to describe security groups: " ++ err
  | .DescribeSecurityGroupRules _ _ (.error err) =>
    "failed to describe security group rules: " ++ err
  | .RevokeSecurityGroupIngress _ _ (.error err) => "error deleting rule: " ++ err ++ "\n"
  | .RevokeSecurityGroupEgress _ _ (.error err) => "error deleting rule: " ++ err ++ "\n"
  | _ => ""

/-- A successful `RevokeSecurityGroupIngress` call. -/
def Event.isIngressRevoked : Event → Bool
  | .RevokeSecurityGroupIngress _ _ (.ok _) => true
  | _ => false

/-- A successful `RevokeSecurityGroupEgress` call. -/
def Event.isEgressRevoked : Event → Bool
  | .RevokeSecurityGroupEgress _ _ (.ok _) => true
  | _ => false

/-- The number of successful `RevokeSecurityGroupIngress` calls of a trace. -/
def ingressRevoked (t : List Event) : Nat := t.countP Event.isIngressRevoked

/-- The number of successful `RevokeSecurityGroupEgress` calls of a trace. -/
def egressRevoked (t : List Event) : Nat := t.countP Event.isEgressRevoked

/-- The test `*sg.GroupName == "default"`. -/
def SecurityGroup.isDefault (sg : SecurityGroup) : Bool :=
  decide (sg.GroupName = some "default")

/-- The test `rule.IsEgress != nil && *rule.IsEgress`. -/
def SecurityGroupRule.isEgress (rule : SecurityGroupRule) : Bool :=
  decide (rule.IsEgress = some true)

/-- The groups returned by the successful group listings of a trace, in order. -/
def listedGroups : List Event → List SecurityGroup
  | [] => []
  | .DescribeSecurityGroups _ _ (.ok out) :: rest => out.SecurityGroups ++ listedGroups rest
  | _ :: rest => listedGroups rest

/-- The rules returned by the successful rule listings of a trace, in order. -/
def listedRules : List Event → List SecurityGroupRule
  | [] => []
  | .DescribeSecurityGroupRules _ _ (.ok out) :: rest => out.SecurityGroupRules ++ listedRules rest
  | _ :: rest => listedRules rest

/-- The IDs, as listed, of the rules of `rs` in the direction `egress`. -/
def ruleIDs (egress : Bool) (rs : List SecurityGroupRule) : List (Option String) :=
  (rs.filter fun r => r.isEgress == egress).map (·.SecurityGroupRuleId)

/-- The group IDs a rule listing request filters on. -/
def DescribeSecurityGroupRulesInput.groupIDs (input : DescribeSecurityGroupRulesInput) :
    List String :=
  (input.Filters.filter fun f => f.Name == some "group-id").flatMap (·.Values)

/-- The group IDs carried by the request of a call. -/
def Event.groupIDs : Event → List String
  | .DescribeSecurityGroups _ _ _ => []
  | .DescribeSecurityGroupRules _ input _ => input.groupIDs
  | .RevokeSecurityGroupIngress _ input _ => input.GroupId.toList
  | .RevokeSecurityGroupEgress _ input _ => input.GroupId.toList

/-- The requests of the rule listing calls of a trace, in order. -/
def ruleRequests : List Event → List DescribeSecurityGroupRulesInput
  | [] => []
  | .DescribeSecurityGroupRules _ input _ :: rest => input :: ruleRequests rest
  | _ :: rest => ruleRequests rest

/-- The revoke call for the rule `id` of group `g`, in the direction `egress`:
its request, written out field by field, names the group `g` and holds the
one-element list `[id]`. -/
def revokeEvent (region g : String) (egress : Bool) (id : String) (reply : Reply Unit) : Event :=
  if egress then
    .RevokeSecurityGroupEgress region { GroupId := some g, SecurityGroupRuleIds := [id] } reply
  else
    .RevokeSecurityGroupIngress region { GroupId := some g, SecurityGroupRuleIds := [id] } reply

/-- The successful revoke call owed to a rule listed under the group `g`:
`RevokeSecurityGroupEgress` when the `IsEgress` flag of the rule is present and
true, `RevokeSecurityGroupIngress` otherwise, with the request
`{ GroupId := some g, SecurityGroupRuleIds := [id] }` for the ID `id` of the
rule; none for a rule without an ID. -/
def owedRevoke (region g : String) (rule : SecurityGroupRule) : Option Event :=
  rule.SecurityGroupRuleId.map fun id => revokeEvent region g rule.isEgress id (.ok ())

/-- The successful revoke calls owed to the rules returned by the rule listings
of a trace: one per rule, for the group the listing asked for, in listing order. -/
def owedRevokes : List Event → List (Option Event)
  | [] => []
  | .DescribeSecurityGroupRules region input (.ok out) :: rest =>
    out.SecurityGroupRules.map (fun rule =>
      match input.groupIDs with
      | [g] => owedRevoke region g rule
      | _ => none) ++ owedRevokes rest
  | _ :: rest => owedRevokes rest

/-- The calls of one iteration of the rule loop over a page whose rules all have
an ID: the listing call, then, outside a dry run, one successful revoke call per
rule of the page. -/
def iterationCalls (dryRun : Bool) (region g : String)
    (page : DescribeSecurityGroupRulesOutput) : List Event :=
  .DescribeSecurityGroupRules region (rulesInput g none) (.ok page) ::
    (if dryRun then [] else page.SecurityGroupRules.filterMap (owedRevoke region g))

/-! ## Parts of the program named in the proofs -/

/-- The provider transition taken by the revoke call in the direction `egress`. -/
def Provider.revoke (P : Provider σ) (region : String) (egress : Bool) (input : RevokeInput)
    (env : σ) : Reply Unit × σ :=
  if egress then P.RevokeSecurityGroupEgress region input env
  else P.RevokeSecurityGroupIngress region input env

/-- The locals after the ID of a rule has been appended to the list of its direction. -/
def Vars.push (v : Vars) (egress : Bool) (id : String) : Vars :=
  if egress then { v with egressRuleIDs := v.egressRuleIDs ++ [id] }
  else { v with ingressRuleIDs := v.ingressRuleIDs ++ [id] }

/-- The status after a revoke call. -/
def revokeStatus : Reply Unit → Status
  | .ok _ => .ok
  | .error err => .fatal ("error deleting rule: " ++ err ++ "\n")

/-- One iteration of the rule loop up to the test of the token: the listing
call, answered by `rules`, and the loop over the rules of the page. -/
def rulePage (P : Provider σ) (dryRun : Bool) (region g : String)
    (rules : DescribeSecurityGroupRulesOutput) (env : σ) (v : Vars) : Out σ :=
  (Out.call (.DescribeSecurityGroupRules region (rulesInput g none) (.ok rules)) env v).andThen
    (rangeRules P dryRun region g rules.SecurityGroupRules)

/-- One iteration of the group loop up to the test of the token: the listing
call, answered by `groups`, and the loop over the groups of the page. -/
def groupPage (region : String) (groups : DescribeSecurityGroupsOutput) (env : σ)
    (v : Vars) : Out σ :=
  (Out.call (.DescribeSecurityGroups region { NextToken := none } (.ok groups)) env v).andThen
    (rangeGroups groups.SecurityGroups)

/-- The group loop of `runInRegion`, as run after the configuration is loaded. -/
def groupStage (P : Provider σ) (fuel : Nat) (region : String) (env : σ) : Out σ :=
  groupLoop P region fuel (P.LoadDefaultConfig region env).2
    { groupIDs := [], ingressRuleIDs := [], egressRuleIDs := [] }

/-- The loop of `runInRegion` over the collected group IDs, as run after the
group loop. -/
def ruleStage (P : Provider σ) (fuel : Nat) (dryRun : Bool) (region : String) (env : σ) :
    Out σ :=
  rangeGroupIDs P fuel dryRun region (groupStage P fuel region env).vars.groupIDs
    (groupStage P fuel region env).env (groupStage P fuel region env).vars

/-! ## Properties of a piece of the program -/

/-- The calls the rule stage of `runInRegion` can issue for the group `g`. -/
inductive RuleEvent (dryRun : Bool) (region g : String) : Event → Prop
  | rules (r : Reply DescribeSecurityGroupRulesOutput) :
      RuleEvent dryRun region g (.DescribeSecurityGroupRules region (rulesInput g none) r)
  | ingress (h : dryRun = false) (id : String) (r : Reply Unit) :
      RuleEvent dryRun region g (.RevokeSecurityGroupIngress region (revokeInput g id) r)
  | egress (h : dryRun = false) (id : String) (r : Reply Unit) :
      RuleEvent dryRun region g (.RevokeSecurityGroupEgress region (revokeInput g id) r)

/-- A failed call is the last call of the piece, and the piece ends with the
fatal message of that call. -/
def FailLast (o : Out σ) : Prop :=
  ∀ pre ev post, o.trace = pre ++ ev :: post → ev.failed = true →
    post = [] ∧ o.status = .fatal ev.fatalMsg

/-- A piece that ended on `log.Fatalf` has a failed call in its trace. -/
def FatalExplained (o : Out σ) : Prop :=
  ∀ msg, o.status = .fatal msg → ∃ ev ∈ o.trace, ev.failed = true

/-- The two ID lists hold the IDs of the rules processed so far, each in the
list of its direction; the rules processed are the rules listed in the trace,
all of them when the piece ended normally and a first part of them otherwise. -/
def Partitioned (v : Vars) (o : Out σ) : Prop :=
  ∃ processed, processed <+: listedRules o.trace ∧
    (o.status = .ok → processed = listedRules o.trace) ∧
    o.vars.groupIDs = v.groupIDs ∧
    o.vars.ingressRuleIDs.map some = v.ingressRuleIDs.map some ++ ruleIDs false processed ∧
    o.vars.egressRuleIDs.map some = v.egressRuleIDs.map some ++ ruleIDs true processed

/-- Outside a dry run, a piece that ended normally issued exactly the revoke
calls owed to the rules listed in its trace, and all of them succeeded. -/
def Settled (dryRun : Bool) (o : Out σ) : Prop :=
  o.status = .ok → dryRun = false →
    (o.trace.filter Event.isRevoke).map some = owedRevokes o.trace

/-- Outside a dry run, a piece that ended normally lengthened each ID list by
the number of successful revoke calls of its direction. -/
def Counted (dryRun : Bool) (v : Vars) (o : Out σ) : Prop :=
  o.status = .ok → dryRun = false →
    o.vars.ingressRuleIDs.length = v.ingressRuleIDs.length + ingressRevoked o.trace ∧
    o.vars.egressRuleIDs.length = v.egressRuleIDs.length + egressRevoked o.trace

/-- The group loop has scanned a first part of the groups listed in its trace,
all of them unless it stopped on a nil pointer, and `groupIDs` holds the IDs of
the scanned groups named "default"; nothing else changed and nothing was printed. -/
def Scanned (v : Vars) (o : Out σ) : Prop :=
  (∃ scanned, scanned <+: listedGroups o.trace ∧
    (o.status ≠ .nilDeref → scanned = listedGroups o.trace) ∧
    o.vars.groupIDs.map some =
      v.groupIDs.map some ++ (scanned.filter SecurityGroup.isDefault).map (·.GroupId)) ∧
  o.vars.ingressRuleIDs = v.ingressRuleIDs ∧ o.vars.egressRuleIDs = v.egressRuleIDs ∧
  o.stdout = []

/-! ## Sample providers -/

/-- A deterministic provider that never fails: the configuration loads, each
listing reply is a function of the region and the request alone, and every
revoke call succeeds. -/
def Provider.static
    (groups : String → DescribeSecurityGroupsInput → DescribeSecurityGroupsOutput)
    (rules : String → DescribeSecurityGroupRulesInput → DescribeSecurityGroupRulesOutput) :
    Provider Unit where
  LoadDefaultConfig _ s := (none, s)
  DescribeSecurityGroups region input s := (.ok (groups region input), s)
  DescribeSecurityGroupRules region input s := (.ok (rules region input), s)
  RevokeSecurityGroupIngress _ _ s := (.ok (), s)
  RevokeSecurityGroupEgress _ _ s := (.ok (), s)

/-- A region with four groups on one page, only the first named "default", whose
rules, on one page, are an ingress rule without a flag, an egress rule and an
ingress rule with the flag set to false. -/
def sampleSingle : Provider Unit :=
  Provider.static
    (fun _ _ =>
      { SecurityGroups :=
          [⟨some "sg-1", some "default", some "vpc-1"⟩,
           ⟨some "sg-2", some "Default", some "vpc-2"⟩,
           ⟨some "sg-3", some "default ", some "vpc-3"⟩,
           ⟨some "sg-4", some "my-default", some "vpc-4"⟩],
        NextToken := none })
    (fun _ _ =>
      { SecurityGroupRules :=
          [⟨some "sgr-1", none⟩, ⟨some "sgr-2", some true⟩, ⟨some "sgr-3", some false⟩],
        NextToken := none })

/-- A region with two groups on one page, none of them named "default". -/
def sampleNoDefault : Provider Unit :=
  Provider.static
    (fun _ _ =>
      { SecurityGroups :=
          [⟨some "sg-2", some "Default", some "vpc-2"⟩,
           ⟨some "sg-5", some "web", some "vpc-2"⟩],
        NextToken := none })
    (fun _ _ => { SecurityGroupRules := [⟨some "sgr-9", none⟩], NextToken := none })

/-- A provider with state (the number of revoke calls served): every region has
one default group with an ingress and an egress rule on one page, and the egress
revoke fails in region "eu-west-1". -/
def sampleFailing : Provider Nat where
  LoadDefaultConfig _ s := (none, s)
  DescribeSecurityGroups region _ s :=
    (.ok { SecurityGroups := [⟨some ("sg-" ++ region), some "default", some "vpc-1"⟩],
           NextToken := none }, s)
  DescribeSecurityGroupRules _ _ s :=
    (.ok { SecurityGroupRules := [⟨some "sgr-1", some false⟩, ⟨some "sgr-2", some true⟩],
           NextToken := none }, s)
  RevokeSecurityGroupIngress _ _ s := (.ok (), s + 1)
  RevokeSecurityGroupEgress region _ s :=
    (if region = "eu-west-1" then .error "RequestLimitExceeded" else .ok (), s + 1)

/-- The calls of `sampleFailing` in region "eu-west-1" before the failing one. -/
def sampleFailingBefore : List Event :=
  [.DescribeSecurityGroups "eu-west-1" { NextToken := none }
    (.ok { SecurityGroups := [⟨some "sg-eu-west-1", some "default", some "vpc-1"⟩],
           NextToken := none }),
   .DescribeSecurityGroupRules "eu-west-1" (rulesInput "sg-eu-west-1" none)
    (.ok { SecurityGroupRules := [⟨some "sgr-1", some false⟩, ⟨some "sgr-2", some true⟩],
           NextToken := none }),
   .RevokeSecurityGroupIngress "eu-west-1" (revokeInput "sg-eu-west-1" "sgr-1") (.ok ())]

/-- The failing call of `sampleFailing` in region "eu-west-1". -/
def sampleFailingCall : Event :=
  .RevokeSecurityGroupEgress "eu-west-1" (revokeInput "sg-eu-west-1" "sgr-2")
    (.error "RequestLimitExceeded")

/-- Group listing in two pages: the request without a token gets the first
page and the token "page-2"; a request carrying a token gets the last page. -/
def twoPageGroups (_ : String) (input : DescribeSecurityGroupsInput) :
    DescribeSecurityGroupsOutput :=
  match input.NextToken with
  | none =>
    { SecurityGroups := [⟨some "sg-1", some "default", some "vpc-1"⟩],
      NextToken := some "page-2" }
  | some _ =>
    { SecurityGroups := [⟨some "sg-2", some "default", some "vpc-2"⟩], NextToken := none }

/-- Group listing in one page holding one group named "default". -/
def oneDefaultGroup (_ : String) (_ : DescribeSecurityGroupsInput) :
    DescribeSecurityGroupsOutput :=
  { SecurityGroups := [⟨some "sg-1", some "default", some "vpc-1"⟩], NextToken := none }

/-- Rule listing in two pages, two ingress rules then one egress rule: the
request without a token gets the first page and the token "page-2"; a request
carrying a token gets the last page. -/
def twoPageRules (_ : String) (input : DescribeSecurityGroupRulesInput) :
    DescribeSecurityGroupRulesOutput :=
  match input.NextToken with
  | none =>
    { SecurityGroupRules := [⟨some "sgr-1", some false⟩, ⟨some "sgr-2", some false⟩],
      NextToken := some "page-2" }
  | some _ => { SecurityGroupRules := [⟨some "sgr-3", some true⟩], NextToken := none }

/-- Rule listing that returns no rule. -/
def noRules (_ : String) (_ : DescribeSecurityGroupRulesInput) :
    DescribeSecurityGroupRulesOutput :=
  { SecurityGroupRules := [], NextToken := none }

/-- The two-page scenario: one default group whose three rules come in two
pages of 2 and 1. -/
def samplePaged : Provider Unit := Provider.static oneDefaultGroup twoPageRules

/-- A region whose groups come in two pages. -/
def sampleTwoGroupPages : Provider Unit := Provider.static twoPageGroups noRules

/-! ## Sequential composition -/

theorem Out.andThen_ok {a : Out σ} (k : σ → Vars → Out σ) (h : a.status = .ok) :
    a.andThen k =
      { status := (k a.env a.vars).status, env := (k a.env a.vars).env,
        vars := (k a.env a.vars).vars, trace := a.trace ++ (k a.env a.vars).trace,
        stdout := a.stdout ++ (k a.env a.vars).stdout,
        log := a.log ++ (k a.env a.vars).log } := by
  unfold Out.andThen
  rw [h]

theorem Out.andThen_not_ok {a : Out σ} (k : σ → Vars → Out σ) (h : a.status ≠ .ok) :
    a.andThen k = a := by
  unfold Out.andThen
  split
  · contradiction
  · rfl

theorem Out.andThen_trace_forall {a : Out σ} {k : σ → Vars → Out σ} {Q : Event → Prop}
    (ha : ∀ ev ∈ a.trace, Q ev) (hk : ∀ env v, ∀ ev ∈ (k env v).trace, Q ev) :
    ∀ ev ∈ (a.andThen k).trace, Q ev := by
  by_cases h : a.status = .ok
  · rw [Out.andThen_ok k h]
    intro ev hev
    rcases List.mem_append.1 hev with h1 | h1
    · exact ha ev h1
    · exact hk _ _ ev h1
  · rw [Out.andThen_not_ok k h]
    exact ha

/-! ## Which calls are issued -/

theorem ruleBody_events (P : Provider σ) (dryRun : Bool) (region g : String)
    (rule : SecurityGroupRule) (env : σ) (v : Vars) :
    ∀ ev ∈ (ruleBody P dryRun region g rule env v).trace, RuleEvent dryRun region g ev := by
  unfold ruleBody
  split
  · split
    · simp [Out.stop]
    · cases dryRun
      · simp only [Bool.false_eq_true, if_false]
        apply Out.andThen_trace_forall
        · simp [Out.logf]
        · intro env v
          apply Out.andThen_trace_forall
          · intro ev hev
            simp only [Out.call, List.mem_singleton] at hev
            subst hev
            exact RuleEvent.egress rfl _ _
          · intro env v
            split <;> simp [Out.fatalf, Out.ret]
      · simp [Out.logf]
  · split
    · simp [Out.stop]
    · cases dryRun
      · simp only [Bool.false_eq_true, if_false]
        apply Out.andThen_trace_forall
        · simp [Out.logf]
        · intro env v
          apply Out.andThen_trace_forall
          · intro ev hev
            simp only [Out.call, List.mem_singleton] at hev
            subst hev
            exact RuleEvent.ingress rfl _ _
          · intro env v
            split <;> simp [Out.fatalf, Out.ret]
      · simp [Out.logf]

theorem rangeRules_events (P : Provider σ) (dryRun : Bool) (region g : String)
    (rules : List SecurityGroupRule) (env : σ) (v : Vars) :
    ∀ ev ∈ (rangeRules P dryRun region g rules env v).trace, RuleEvent dryRun region g ev := by
  induction rules generalizing env v with
  | nil => simp [rangeRules, Out.ret]
  | cons rule rest ih =>
    rw [rangeRules]
    exact Out.andThen_trace_forall (ruleBody_events P dryRun region g rule env v) ih

theorem ruleLoop_events (P : Provider σ) (dryRun : Bool) (region g : String)
    (fuel : Nat) (env : σ) (v : Vars) :
    ∀ ev ∈ (ruleLoop P dryRun region g fuel env v).trace, RuleEvent dryRun region g ev := by
  induction fuel generalizing env v with
  | zero => simp [ruleLoop, Out.stop]
  | succ fuel ih =>
    rw [ruleLoop]
    apply Out.andThen_trace_forall
    · intro ev hev
      simp only [Out.call, List.mem_singleton] at hev
      subst hev
      exact RuleEvent.rules _
    · intro env v
      split
      · simp [Out.fatalf]
      · apply Out.andThen_trace_forall (rangeRules_events P dryRun region g _ env v)
        intro env v
        dsimp only
        split
        · simp [Out.ret]
        · exact ih env v

theorem rangeGroupIDs_events (P : Provider σ) (fuel : Nat) (dryRun : Bool) (region : String)
    (gs : List String) (env : σ) (v : Vars) :
    ∀ ev ∈ (rangeGroupIDs P fuel dryRun region gs env v).trace,
      ∃ g ∈ gs, RuleEvent dryRun region g ev := by
  induction gs generalizing env v with
  | nil => simp [rangeGroupIDs, Out.ret]
  | cons g rest ih =>
    rw [rangeGroupIDs]
    apply Out.andThen_trace_forall
    · intro ev hev
      exact ⟨g, List.mem_cons_self _ _, ruleLoop_events P dryRun region g fuel env v ev hev⟩
    · intro env v ev hev
      obtain ⟨g', hg', h⟩ := ih env v ev hev
      exact ⟨g', List.mem_cons_of_mem _ hg', h⟩

theorem groupBody_trace (sg : SecurityGroup) (env : σ) (v : Vars) :
    (groupBody sg env v : Out σ).trace = [] := by
  unfold groupBody
  repeat' split
  all_goals simp [Out.stop, Out.logf, Out.ret]

theorem rangeGroups_trace (gs : List SecurityGroup) (env : σ) (v : Vars) :
    (rangeGroups gs env v : Out σ).trace = [] := by
  induction gs generalizing env v with
  | nil => simp [rangeGroups, Out.ret]
  | cons sg rest ih =>
    rw [rangeGroups]
    by_cases h : (groupBody sg env v : Out σ).status = .ok
    · rw [Out.andThen_ok _ h]
      simp [groupBody_trace, ih]
    · rw [Out.andThen_not_ok _ h]
      exact groupBody_trace sg env v

theorem groupLoop_events (P : Provider σ) (region : String) (fuel : Nat) (env : σ) (v : Vars) :
    ∀ ev ∈ (groupLoop P region fuel env v).trace,
      ∃ r, ev = .DescribeSecurityGroups region { NextToken := none } r := by
  induction fuel generalizing env v with
  | zero => simp [groupLoop, Out.stop]
  | succ fuel ih =>
    rw [groupLoop]
    apply Out.andThen_trace_forall
    · intro ev hev
      simp only [Out.call, List.mem_singleton] at hev
      exact ⟨_, hev⟩
    · intro env v
      split
      · simp [Out.fatalf]
      · apply Out.andThen_trace_forall
        · simp [rangeGroups_trace]
        · intro env v
          dsimp only
          split
          · simp [Out.ret]
          · exact ih env v

/-! ## The fields of a sequential composition -/

theorem Out.andThen_status (a : Out σ) (k : σ → Vars → Out σ) :
    (a.andThen k).status = if a.status = .ok then (k a.env a.vars).status else a.status := by
  by_cases h : a.status = .ok
  · rw [Out.andThen_ok k h, if_pos h]
  · rw [Out.andThen_not_ok k h, if_neg h]

theorem Out.andThen_trace (a : Out σ) (k : σ → Vars → Out σ) :
    (a.andThen k).trace = a.trace ++ if a.status = .ok then (k a.env a.vars).trace else [] := by
  by_cases h : a.status = .ok
  · rw [Out.andThen_ok k h, if_pos h]
  · rw [Out.andThen_not_ok k h, if_neg h, List.append_nil]

theorem Out.andThen_stdout (a : Out σ) (k : σ → Vars → Out σ) :
    (a.andThen k).stdout =
      a.stdout ++ if a.status = .ok then (k a.env a.vars).stdout else [] := by
  by_cases h : a.status = .ok
  · rw [Out.andThen_ok k h, if_pos h]
  · rw [Out.andThen_not_ok k h, if_neg h, List.append_nil]

theorem Out.andThen_vars (a : Out σ) (k : σ → Vars → Out σ) :
    (a.andThen k).vars = if a.status = .ok then (k a.env a.vars).vars else a.vars := by
  by_cases h : a.status = .ok
  · rw [Out.andThen_ok k h, if_pos h]
  · rw [Out.andThen_not_ok k h, if_neg h]

theorem Out.andThen_env (a : Out σ) (k : σ → Vars → Out σ) :
    (a.andThen k).env = if a.status = .ok then (k a.env a.vars).env else a.env := by
  by_cases h : a.status = .ok
  · rw [Out.andThen_ok k h, if_pos h]
  · rw [Out.andThen_not_ok k h, if_neg h]

theorem listedGroups_append (s t : List Event) :
    listedGroups (s ++ t) = listedGroups s ++ listedGroups t := by
  induction s with
  | nil => rfl
  | cons ev s ih =>
    cases ev with
    | DescribeSecurityGroups region input reply =>
      cases reply <;> simp [listedGroups, ih]
    | _ => simp [listedGroups, ih]

theorem listedRules_append (s t : List Event) :
    listedRules (s ++ t) = listedRules s ++ listedRules t := by
  induction s with
  | nil => rfl
  | cons ev s ih =>
    cases ev with
    | DescribeSecurityGroupRules region input reply =>
      cases reply <;> simp [listedRules, ih]
    | _ => simp [listedRules, ih]

@[simp] theorem Out.ret_status (env : σ) (v : Vars) : (Out.ret env v).status = .ok := rfl

@[simp] theorem Out.ret_env (env : σ) (v : Vars) : (Out.ret env v).env = env := rfl

@[simp] theorem Out.ret_vars (env : σ) (v : Vars) : (Out.ret env v).vars = v := rfl

@[simp] theorem Out.ret_trace (env : σ) (v : Vars) : (Out.ret env v).trace = [] := rfl

@[simp] theorem Out.ret_stdout (env : σ) (v : Vars) : (Out.ret env v).stdout = [] := rfl

@[simp] theorem Out.stop_status (st : Status) (env : σ) (v : Vars) :
    (Out.stop st env v).status = st := rfl

@[simp] theorem Out.stop_env (st : Status) (env : σ) (v : Vars) :
    (Out.stop st env v).env = env := rfl

@[simp] theorem Out.stop_vars (st : Status) (env : σ) (v : Vars) :
    (Out.stop st env v).vars = v := rfl

@[simp] theorem Out.stop_trace (st : Status) (env : σ) (v : Vars) :
    (Out.stop st env v).trace = [] := rfl

@[simp] theorem Out.stop_stdout (st : Status) (env : σ) (v : Vars) :
    (Out.stop st env v).stdout = [] := rfl

@[simp] theorem Out.logf_status (msg : String) (env : σ) (v : Vars) :
    (Out.logf msg env v).status = .ok := rfl

@[simp] theorem Out.logf_env (msg : String) (env : σ) (v : Vars) :
    (Out.logf msg env v).env = env := rfl

@[simp] theorem Out.logf_vars (msg : String) (env : σ) (v : Vars) :
    (Out.logf msg env v).vars = v := rfl

@[simp] theorem Out.logf_trace (msg : String) (env : σ) (v : Vars) :
    (Out.logf msg env v).trace = [] := rfl

@[simp] theorem Out.logf_stdout (msg : String) (env : σ) (v : Vars) :
    (Out.logf msg env v).stdout = [] := rfl

@[simp] theorem Out.fatalf_status (msg : String) (env : σ) (v : Vars) :
    (Out.fatalf msg env v).status = .fatal msg := rfl

@[simp] theorem Out.fatalf_env (msg : String) (env : σ) (v : Vars) :
    (Out.fatalf msg env v).env = env := rfl

@[simp] theorem Out.fatalf_vars (msg : String) (env : σ) (v : Vars) :
    (Out.fatalf msg env v).vars = v := rfl

@[simp] theorem Out.fatalf_trace (msg : String) (env : σ) (v : Vars) :
    (Out.fatalf msg env v).trace = [] := rfl

@[simp] theorem Out.fatalf_stdout (msg : String) (env : σ) (v : Vars) :
    (Out.fatalf msg env v).stdout = [] := rfl

@[simp] theorem Out.printf_status (line : String) (env : σ) (v : Vars) :
    (Out.printf line env v).status = .ok := rfl

@[simp] theorem Out.printf_env (line : String) (env : σ) (v : Vars) :
    (Out.printf line env v).env = env := rfl

@[simp] theorem Out.printf_vars (line : String) (env : σ) (v : Vars) :
    (Out.printf line env v).vars = v := rfl

@[simp] theorem Out.printf_trace (line : String) (env : σ) (v : Vars) :
    (Out.printf line env v).trace = [] := rfl

@[simp] theorem Out.printf_stdout (line : String) (env : σ) (v : Vars) :
    (Out.printf line env v).stdout = [line] := rfl

@[simp] theorem Out.call_status (ev : Event) (env : σ) (v : Vars) :
    (Out.call ev env v).status = .ok := rfl

@[simp] theorem Out.call_env (ev : Event) (env : σ) (v : Vars) :
    (Out.call ev env v).env = env := rfl

@[simp] theorem Out.call_vars (ev : Event) (env : σ) (v : Vars) :
    (Out.call ev env v).vars = v := rfl

@[simp] theorem Out.call_trace (ev : Event) (env : σ) (v : Vars) :
    (Out.call ev env v).trace = [ev] := rfl

@[simp] theorem Out.call_stdout (ev : Event) (env : σ) (v : Vars) :
    (Out.call ev env v).stdout = [] := rfl

/-! ## The loops over the groups and the rules of one page -/

/-- What `rangeGroups` leaves in `groupIDs`: the IDs of the groups named
"default" among the groups it scanned, which are all of them unless it stopped. -/
theorem rangeGroups_groupIDs (gs : List SecurityGroup) (env : σ) (v : Vars) :
    ∃ scanned, scanned <+: gs ∧
      ((rangeGroups gs env v).status = .ok → scanned = gs) ∧
      (rangeGroups gs env v).vars.groupIDs.map some =
        v.groupIDs.map some ++ (scanned.filter SecurityGroup.isDefault).map (·.GroupId) := by
  induction gs generalizing env v with
  | nil => exact ⟨[], List.prefix_refl _, fun _ => rfl, by simp [rangeGroups]⟩
  | cons sg rest ih =>
    rw [rangeGroups, Out.andThen_status, Out.andThen_vars]
    rcases sg with ⟨gid, gname, vpc⟩
    cases gname with
    | none =>
      exact ⟨[], List.nil_prefix, by simp [groupBody], by simp [groupBody]⟩
    | some name =>
      by_cases hdef : name = "default"
      · cases gid with
        | none =>
          exact ⟨[], List.nil_prefix, by simp [groupBody, hdef], by simp [groupBody, hdef]⟩
        | some groupId =>
          cases vpc with
          | none =>
            refine ⟨[⟨some groupId, some name, none⟩], ?_, ?_, ?_⟩
            · exact List.prefix_iff_eq_append.2 (by simp)
            · simp [groupBody, hdef]
            · simp [groupBody, hdef, SecurityGroup.isDefault]
          | some vpcId =>
            obtain ⟨scanned, hpre, hall, hids⟩ :=
              ih env { v with groupIDs := v.groupIDs ++ [groupId] }
            refine ⟨_ :: scanned, (List.prefix_cons_inj _).2 hpre, ?_, ?_⟩
            · intro h
              simp only [groupBody, hdef, if_true, Out.logf_status, Out.logf_env,
                Out.logf_vars] at h
              rw [hall h]
            · simp only [groupBody, hdef, if_true, Out.logf_status, Out.logf_env,
                Out.logf_vars]
              rw [hids]
              simp [SecurityGroup.isDefault]
      · obtain ⟨scanned, hpre, hall, hids⟩ := ih env v
        refine ⟨_ :: scanned, (List.prefix_cons_inj _).2 hpre, ?_, ?_⟩
        · intro h
          simp only [groupBody, hdef, if_false, if_true, Out.ret_status, Out.ret_env,
            Out.ret_vars] at h
          rw [hall h]
        · simp only [groupBody, hdef, if_false, if_true, Out.ret_status, Out.ret_env,
            Out.ret_vars]
          rw [hids]
          simp [SecurityGroup.isDefault, hdef]

/-- The three ways the body of the rule loop can go: the rule has no ID; dry
run; or one revoke call in the direction of the rule. -/
theorem ruleBody_cases (P : Provider σ) (dryRun : Bool) (region g : String)
    (rule : SecurityGroupRule) (env : σ) (v : Vars) :
    (rule.SecurityGroupRuleId = none ∧
        ruleBody P dryRun region g rule env v = Out.stop .nilDeref env v) ∨
    ∃ id, rule.SecurityGroupRuleId = some id ∧
      (ruleBody P dryRun region g rule env v).vars = v.push rule.isEgress id ∧
      (ruleBody P dryRun region g rule env v).stdout = [] ∧
      ((dryRun = true ∧ (ruleBody P dryRun region g rule env v).status = .ok ∧
          (ruleBody P dryRun region g rule env v).trace = [] ∧
          (ruleBody P dryRun region g rule env v).env = env) ∨
        (dryRun = false ∧
          (ruleBody P dryRun region g rule env v).status =
            revokeStatus (P.revoke region rule.isEgress (revokeInput g id) env).1 ∧
          (ruleBody P dryRun region g rule env v).trace =
            [revokeEvent region g rule.isEgress id
              (P.revoke region rule.isEgress (revokeInput g id) env).1] ∧
          (ruleBody P dryRun region g rule env v).env =
            (P.revoke region rule.isEgress (revokeInput g id) env).2)) := by
  rcases rule with ⟨rid, eg⟩
  cases rid with
  | none =>
    left
    refine ⟨rfl, ?_⟩
    unfold ruleBody
    split <;> rfl
  | some id =>
    right
    refine ⟨id, rfl, ?_⟩
    by_cases heg : eg = some true
    · cases dryRun
      · simp only [ruleBody, heg, SecurityGroupRule.isEgress, Vars.push, Provider.revoke,
          revokeEvent, Out.andThen_status, Out.andThen_vars, Out.andThen_stdout,
          Out.andThen_trace, Out.andThen_env, if_true, decide_True, Out.logf_status,
          Out.logf_vars, Out.logf_env, Out.logf_stdout, Out.logf_trace, Out.call_status,
          Out.call_vars, Out.call_env, Out.call_stdout, Out.call_trace, Bool.false_eq_true,
          if_false]
        cases (P.RevokeSecurityGroupEgress region (revokeInput g id) env).1 <;>
          simp [revokeStatus, revokeInput]
      · simp [ruleBody, heg, SecurityGroupRule.isEgress, Vars.push]
    · cases dryRun
      · simp only [ruleBody, heg, SecurityGroupRule.isEgress, Vars.push, Provider.revoke,
          revokeEvent, Out.andThen_status, Out.andThen_vars, Out.andThen_stdout,
          Out.andThen_trace, Out.andThen_env, if_true, if_false, decide_False, Out.logf_status,
          Out.logf_vars, Out.logf_env, Out.logf_stdout, Out.logf_trace, Out.call_status,
          Out.call_vars, Out.call_env, Out.call_stdout, Out.call_trace, Bool.false_eq_true]
        cases (P.RevokeSecurityGroupIngress region (revokeInput g id) env).1 <;>
          simp [revokeStatus, revokeInput]
      · simp [ruleBody, heg, SecurityGroupRule.isEgress, Vars.push]

theorem ruleIDs_append (egress : Bool) (rs ts : List SecurityGroupRule) :
    ruleIDs egress (rs ++ ts) = ruleIDs egress rs ++ ruleIDs egress ts := by
  simp [ruleIDs]

theorem Vars.push_groupIDs (v : Vars) (egress : Bool) (id : String) :
    (v.push egress id).groupIDs = v.groupIDs := by
  cases egress <;> rfl

theorem Vars.push_ingress (v : Vars) (rule : SecurityGroupRule) (id : String)
    (h : rule.SecurityGroupRuleId = some id) :
    (v.push rule.isEgress id).ingressRuleIDs.map some =
      v.ingressRuleIDs.map some ++ ruleIDs false [rule] := by
  cases heg : rule.isEgress <;> simp [Vars.push, ruleIDs, heg, h]

theorem Vars.push_egress (v : Vars) (rule : SecurityGroupRule) (id : String)
    (h : rule.SecurityGroupRuleId = some id) :
    (v.push rule.isEgress id).egressRuleIDs.map some =
      v.egressRuleIDs.map some ++ ruleIDs true [rule] := by
  cases heg : rule.isEgress <;> simp [Vars.push, ruleIDs, heg, h]

/-! ## A failed call is the last call -/

/-- What `rangeRules` leaves in the locals: the IDs of the rules it processed,
each in the list of its direction.  It processed all of them unless it stopped. -/
theorem rangeRules_lists (P : Provider σ) (dryRun : Bool) (region g : String)
    (rules : List SecurityGroupRule) (env : σ) (v : Vars) :
    ∃ processed, processed <+: rules ∧
      ((rangeRules P dryRun region g rules env v).status = .ok → processed = rules) ∧
      (rangeRules P dryRun region g rules env v).vars.groupIDs = v.groupIDs ∧
      (rangeRules P dryRun region g rules env v).vars.ingressRuleIDs.map some =
        v.ingressRuleIDs.map some ++ ruleIDs false processed ∧
      (rangeRules P dryRun region g rules env v).vars.egressRuleIDs.map some =
        v.egressRuleIDs.map some ++ ruleIDs true processed := by
  induction rules generalizing env v with
  | nil => exact ⟨[], List.prefix_refl _, fun _ => rfl, by simp [rangeRules, ruleIDs]⟩
  | cons rule rest ih =>
    rw [rangeRules, Out.andThen_status, Out.andThen_vars]
    rcases ruleBody_cases P dryRun region g rule env v with
      ⟨_, hb⟩ | ⟨id, hid, hv, _, ⟨_, hs, _, he⟩ | ⟨_, hs, _, he⟩⟩
    · rw [hb]
      exact ⟨[], List.nil_prefix, by simp, by simp [ruleIDs]⟩
    · rw [hs, hv, he]
      obtain ⟨processed, hpre, hall, hg, hi, hegr⟩ := ih env (v.push rule.isEgress id)
      refine ⟨rule :: processed, (List.prefix_cons_inj _).2 hpre, ?_, ?_, ?_, ?_⟩
      · intro h; rw [hall (by simpa using h)]
      · simpa [Vars.push_groupIDs] using hg
      · simp only [if_true]
        rw [hi, Vars.push_ingress v rule id hid, List.append_assoc, ← ruleIDs_append]
        rfl
      · simp only [if_true]
        rw [hegr, Vars.push_egress v rule id hid, List.append_assoc, ← ruleIDs_append]
        rfl
    · rw [hs, hv, he]
      cases hr : (P.revoke region rule.isEgress (revokeInput g id) env).1 with
      | ok u =>
        obtain ⟨processed, hpre, hall, hg, hi, hegr⟩ :=
          ih (P.revoke region rule.isEgress (revokeInput g id) env).2 (v.push rule.isEgress id)
        refine ⟨rule :: processed, (List.prefix_cons_inj _).2 hpre, ?_, ?_, ?_, ?_⟩
        · intro h; rw [hall (by simpa [revokeStatus] using h)]
        · simpa [revokeStatus, Vars.push_groupIDs] using hg
        · simp only [revokeStatus, if_true]
          rw [hi, Vars.push_ingress v rule id hid, List.append_assoc, ← ruleIDs_append]
          rfl
        · simp only [revokeStatus, if_true]
          rw [hegr, Vars.push_egress v rule id hid, List.append_assoc, ← ruleIDs_append]
          rfl
      | error err =>
        refine ⟨[rule], List.prefix_iff_eq_append.2 (by simp), ?_, ?_, ?_, ?_⟩
        · simp [revokeStatus]
        · simp [revokeStatus, Vars.push_groupIDs]
        · simpa [revokeStatus] using Vars.push_ingress v rule id hid
        · simpa [revokeStatus] using Vars.push_egress v rule id hid

theorem failLast_of_trace_nil {o : Out σ} (h : o.trace = []) : FailLast o := by
  intro pre ev post hpre
  rw [h] at hpre
  simp at hpre

theorem failLast_andThen {a : Out σ} {k : σ → Vars → Out σ} (ha : FailLast a)
    (hk : ∀ env v, FailLast (k env v)) : FailLast (a.andThen k) := by
  by_cases hok : a.status = .ok
  · intro pre ev post htr hev
    rw [Out.andThen_trace, if_pos hok] at htr
    rw [Out.andThen_status, if_pos hok]
    rcases List.append_eq_append_iff.1 htr with ⟨a', _, h2⟩ | ⟨c', h1, h2⟩
    · exact hk _ _ a' ev post h2 hev
    · cases c' with
      | nil => exact hk _ _ [] ev post (by simpa using h2.symm) hev
      | cons x c' =>
        simp only [List.cons_append, List.cons.injEq] at h2
        obtain ⟨rfl, _⟩ := h2
        have := (ha pre ev c' h1 hev).2
        rw [hok] at this
        cases this
  · rw [Out.andThen_not_ok k hok]
    exact ha

theorem revokeEvent_isRevoke (region g : String) (egress : Bool) (id : String)
    (reply : Reply Unit) : (revokeEvent region g egress id reply).isRevoke = true := by
  cases egress <;> rfl

theorem revokeEvent_failLast (region g : String) (egress : Bool) (id : String)
    (reply : Reply Unit) (h : (revokeEvent region g egress id reply).failed = true) :
    revokeStatus reply = .fatal (revokeEvent region g egress id reply).fatalMsg := by
  cases egress <;> cases reply <;> simp_all [revokeEvent, Event.failed, revokeStatus,
    Event.fatalMsg]

theorem ruleBody_failLast (P : Provider σ) (dryRun : Bool) (region g : String)
    (rule : SecurityGroupRule) (env : σ) (v : Vars) :
    FailLast (ruleBody P dryRun region g rule env v) := by
  rcases ruleBody_cases P dryRun region g rule env v with
    ⟨_, hb⟩ | ⟨id, _, _, _, ⟨_, _, ht, _⟩ | ⟨_, hs, ht, _⟩⟩
  · rw [hb]; exact failLast_of_trace_nil rfl
  · exact failLast_of_trace_nil ht
  · intro pre ev post htr hev
    rw [ht] at htr
    cases pre with
    | nil =>
      simp only [List.nil_append, List.cons.injEq] at htr
      obtain ⟨rfl, rfl⟩ := htr
      exact ⟨rfl, by rw [hs]; exact revokeEvent_failLast _ _ _ _ _ hev⟩
    | cons x pre => simp at htr

theorem rangeRules_failLast (P : Provider σ) (dryRun : Bool) (region g : String)
    (rules : List SecurityGroupRule) (env : σ) (v : Vars) :
    FailLast (rangeRules P dryRun region g rules env v) := by
  induction rules generalizing env v with
  | nil => exact failLast_of_trace_nil rfl
  | cons rule rest ih =>
    rw [rangeRules]
    exact failLast_andThen (ruleBody_failLast P dryRun region g rule env v) ih

/-- The page loop prints nothing, issues only revoke calls, and none in a dry run. -/
theorem rangeRules_quiet (P : Provider σ) (dryRun : Bool) (region g : String)
    (rules : List SecurityGroupRule) (env : σ) (v : Vars) :
    (rangeRules P dryRun region g rules env v).stdout = [] ∧
    (∀ ev ∈ (rangeRules P dryRun region g rules env v).trace, ev.isRevoke = true) ∧
    (dryRun = true → (rangeRules P dryRun region g rules env v).trace = []) := by
  induction rules generalizing env v with
  | nil => simp [rangeRules]
  | cons rule rest ih =>
    rw [rangeRules, Out.andThen_stdout, Out.andThen_trace]
    rcases ruleBody_cases P dryRun region g rule env v with
      ⟨_, hb⟩ | ⟨id, _, _, hout, ⟨hd, hs, ht, _⟩ | ⟨hd, hs, ht, _⟩⟩
    · rw [hb]; simp
    · rw [hout, hs, ht]
      simpa using ih _ _
    · rw [hout, ht]
      obtain ⟨h1, h2, _⟩ := ih (ruleBody P dryRun region g rule env v).env
        (ruleBody P dryRun region g rule env v).vars
      refine ⟨?_, ?_, ?_⟩
      · split <;> simp [h1]
      · intro ev hev
        rcases List.mem_append.1 hev with h | h
        · rw [List.mem_singleton.1 h]; exact revokeEvent_isRevoke _ _ _ _ _
        · split at h
          · exact h2 ev h
          · simp at h
      · intro h; rw [hd] at h; cases h

/-! ## The rule loop and the loop over the collected groups -/

/-- When the page loop ends normally outside a dry run, its calls are the
successful revoke calls owed to the rules of the page, in page order. -/
theorem rangeRules_trace_ok (P : Provider σ) (region g : String)
    (rules : List SecurityGroupRule) (env : σ) (v : Vars)
    (hok : (rangeRules P false region g rules env v).status = .ok) :
    (rangeRules P false region g rules env v).trace.map some =
      rules.map (owedRevoke region g) := by
  induction rules generalizing env v with
  | nil => simp [rangeRules]
  | cons rule rest ih =>
    rw [rangeRules, Out.andThen_status] at hok
    rw [rangeRules, Out.andThen_trace]
    rcases ruleBody_cases P false region g rule env v with
      ⟨_, hb⟩ | ⟨id, hid, _, _, ⟨hd, _, _, _⟩ | ⟨_, hs, ht, _⟩⟩
    · rw [hb] at hok; simp at hok
    · cases hd
    · cases hr : (P.revoke region rule.isEgress (revokeInput g id) env).1 with
      | ok u =>
        rw [hr] at hs ht
        rw [hs] at hok ⊢
        simp only [revokeStatus, if_true] at hok ⊢
        rw [ht, List.map_append, ih _ _ hok]
        simp [owedRevoke, hid]
      | error err =>
        rw [hr] at hs
        rw [hs] at hok
        simp [revokeStatus] at hok

theorem rulesInput_groupIDs (g : String) (tok : Option String) :
    (rulesInput g tok).groupIDs = [g] := by
  simp [rulesInput, DescribeSecurityGroupRulesInput.groupIDs]

theorem owedRevokes_append (s t : List Event) :
    owedRevokes (s ++ t) = owedRevokes s ++ owedRevokes t := by
  induction s with
  | nil => rfl
  | cons ev s ih =>
    cases ev with
    | DescribeSecurityGroupRules region input reply =>
      cases reply <;> simp [owedRevokes, ih]
    | _ => simp [owedRevokes, ih]

theorem listedRules_of_revokes {t : List Event} (h : ∀ ev ∈ t, ev.isRevoke = true) :
    listedRules t = [] := by
  induction t with
  | nil => rfl
  | cons ev t ih =>
    have hev := h ev (List.mem_cons_self _ _)
    have ht := ih fun e he => h e (List.mem_cons_of_mem _ he)
    cases ev <;> simp_all [Event.isRevoke, listedRules]

theorem owedRevokes_of_revokes {t : List Event} (h : ∀ ev ∈ t, ev.isRevoke = true) :
    owedRevokes t = [] := by
  induction t with
  | nil => rfl
  | cons ev t ih =>
    have hev := h ev (List.mem_cons_self _ _)
    have ht := ih fun e he => h e (List.mem_cons_of_mem _ he)
    cases ev <;> simp_all [Event.isRevoke, owedRevokes]

theorem filter_isRevoke_of_revokes {t : List Event} (h : ∀ ev ∈ t, ev.isRevoke = true) :
    t.filter Event.isRevoke = t :=
  List.filter_eq_self.2 h

theorem ruleLoop_succ_error (P : Provider σ) (dryRun : Bool) (region g : String) (fuel : Nat)
    (env : σ) (v : Vars) (err : String)
    (h : (P.DescribeSecurityGroupRules region (rulesInput g none) env).1 = .error err) :
    ruleLoop P dryRun region g (fuel + 1) env v =
      (Out.call (.DescribeSecurityGroupRules region (rulesInput g none) (.error err))
        (P.DescribeSecurityGroupRules region (rulesInput g none) env).2 v).andThen
        (Out.fatalf ("failed to describe security group rules: " ++ err)) := by
  rw [ruleLoop]
  simp only [h]

theorem ruleLoop_succ_ok (P : Provider σ) (dryRun : Bool) (region g : String) (fuel : Nat)
    (env : σ) (v : Vars) (rules : DescribeSecurityGroupRulesOutput)
    (h : (P.DescribeSecurityGroupRules region (rulesInput g none) env).1 = .ok rules) :
    ruleLoop P dryRun region g (fuel + 1) env v =
      (Out.call (.DescribeSecurityGroupRules region (rulesInput g none) (.ok rules))
        (P.DescribeSecurityGroupRules region (rulesInput g none) env).2 v).andThen fun env v =>
        (rangeRules P dryRun region g rules.SecurityGroupRules env v).andThen fun env v =>
          match rules.NextToken with
          | none => Out.ret env v
          | some _ => ruleLoop P dryRun region g fuel env v := by
  rw [ruleLoop]
  simp only [h]

theorem ruleLoop_failLast (P : Provider σ) (dryRun : Bool) (region g : String) (fuel : Nat)
    (env : σ) (v : Vars) : FailLast (ruleLoop P dryRun region g fuel env v) := by
  induction fuel generalizing env v with
  | zero => exact failLast_of_trace_nil rfl
  | succ fuel ih =>
    cases hr : (P.DescribeSecurityGroupRules region (rulesInput g none) env).1 with
    | error err =>
      rw [ruleLoop_succ_error P dryRun region g fuel env v err hr]
      intro pre ev post htr hev
      simp only [Out.andThen_trace, Out.call_trace, Out.call_status, if_true,
        Out.fatalf_trace, List.append_nil] at htr
      cases pre with
      | nil =>
        simp only [List.nil_append, List.cons.injEq] at htr
        obtain ⟨rfl, rfl⟩ := htr
        exact ⟨rfl, by simp [Out.andThen_status, Event.fatalMsg]⟩
      | cons x pre => simp at htr
    | ok rules =>
      rw [ruleLoop_succ_ok P dryRun region g fuel env v rules hr]
      have hrest : ∀ env v, FailLast
          ((rangeRules P dryRun region g rules.SecurityGroupRules env v).andThen fun env v =>
            match rules.NextToken with
            | none => Out.ret env v
            | some _ => ruleLoop P dryRun region g fuel env v) := by
        intro env v
        apply failLast_andThen (rangeRules_failLast P dryRun region g _ env v)
        intro env v
        split
        · exact failLast_of_trace_nil rfl
        · exact ih env v
      intro pre ev post htr hev
      simp only [Out.andThen_trace, Out.call_trace, Out.call_status, if_true,
        Out.call_env, Out.call_vars, Out.andThen_status] at htr ⊢
      cases pre with
      | nil =>
        simp only [List.nil_append, List.singleton_append, List.cons.injEq] at htr
        obtain ⟨rfl, _⟩ := htr
        simp [Event.failed] at hev
      | cons x pre =>
        simp only [List.singleton_append, List.cons_append, List.cons.injEq] at htr
        have := hrest _ _ pre ev post (by rw [Out.andThen_trace]; exact htr.2) hev
        simpa [Out.andThen_status] using this

theorem rangeGroupIDs_failLast (P : Provider σ) (fuel : Nat) (dryRun : Bool) (region : String)
    (gs : List String) (env : σ) (v : Vars) :
    FailLast (rangeGroupIDs P fuel dryRun region gs env v) := by
  induction gs generalizing env v with
  | nil => exact failLast_of_trace_nil rfl
  | cons g rest ih =>
    rw [rangeGroupIDs]
    exact failLast_andThen (ruleLoop_failLast P dryRun region g fuel env v) ih

theorem Out.andThen_assoc (a : Out σ) (k₁ k₂ : σ → Vars → Out σ) :
    (a.andThen k₁).andThen k₂ = a.andThen fun env v => (k₁ env v).andThen k₂ := by
  rcases a with ⟨st, env, v, tr, so, lg⟩
  cases st
  case ok =>
    simp only [Out.andThen]
    generalize k₁ env v = b
    rcases b with ⟨st', env', v', tr', so', lg'⟩
    cases st' <;> simp [List.append_assoc]
  all_goals simp [Out.andThen]

theorem partitioned_andThen {v : Vars} {a : Out σ} {k : σ → Vars → Out σ}
    (ha : Partitioned v a) (hk : ∀ env w, Partitioned w (k env w)) :
    Partitioned v (a.andThen k) := by
  by_cases hok : a.status = .ok
  · obtain ⟨pa, _, halla, hga, hia, hea⟩ := ha
    obtain ⟨pb, hpreb, hallb, hgb, hib, heb⟩ := hk a.env a.vars
    rw [Out.andThen_ok k hok]
    refine ⟨listedRules a.trace ++ pb, ?_, ?_, ?_, ?_, ?_⟩
    · simp only [listedRules_append]
      exact (List.prefix_append_right_inj _).2 hpreb
    · intro h
      simp only [listedRules_append]
      rw [hallb h]
    · simp only [hgb, hga]
    · simp only [hib, hia, halla hok, ruleIDs_append, List.append_assoc]
    · simp only [heb, hea, halla hok, ruleIDs_append, List.append_assoc]
  · rw [Out.andThen_not_ok k hok]
    exact ha

theorem settled_andThen {dryRun : Bool} {a : Out σ} {k : σ → Vars → Out σ}
    (ha : Settled dryRun a) (hk : ∀ env w, Settled dryRun (k env w)) :
    Settled dryRun (a.andThen k) := by
  by_cases hok : a.status = .ok
  · rw [Out.andThen_ok k hok]
    intro h hd
    simp only [List.filter_append, List.map_append, owedRevokes_append]
    rw [ha hok hd, hk _ _ h hd]
  · rw [Out.andThen_not_ok k hok]
    exact ha

theorem counted_andThen {dryRun : Bool} {v : Vars} {a : Out σ} {k : σ → Vars → Out σ}
    (ha : Counted dryRun v a) (hk : ∀ env w, Counted dryRun w (k env w)) :
    Counted dryRun v (a.andThen k) := by
  by_cases hok : a.status = .ok
  · rw [Out.andThen_ok k hok]
    intro h hd
    obtain ⟨h1, h2⟩ := ha hok hd
    obtain ⟨h3, h4⟩ := hk _ _ h hd
    simp only [ingressRevoked, egressRevoked, List.countP_append] at *
    omega
  · rw [Out.andThen_not_ok k hok]
    exact ha

theorem partitioned_ret (env : σ) (v : Vars) : Partitioned v (Out.ret env v) :=
  ⟨[], List.prefix_refl _, fun _ => rfl, rfl, by simp [ruleIDs], by simp [ruleIDs]⟩

theorem settled_ret (dryRun : Bool) (env : σ) (v : Vars) : Settled dryRun (Out.ret env v) :=
  fun _ _ => rfl

theorem counted_ret (dryRun : Bool) (env : σ) (v : Vars) :
    Counted dryRun v (Out.ret env v) :=
  fun _ _ => ⟨rfl, rfl⟩

theorem partitioned_stop (st : Status) (env : σ) (v : Vars) :
    Partitioned v (Out.stop st env v) :=
  ⟨[], List.prefix_refl _, fun _ => rfl, rfl, by simp [ruleIDs], by simp [ruleIDs]⟩

theorem Out.andThen_stdout_nil {a : Out σ} {k : σ → Vars → Out σ} (ha : a.stdout = [])
    (hk : ∀ env v, (k env v).stdout = []) : (a.andThen k).stdout = [] := by
  rw [Out.andThen_stdout, ha]
  split <;> simp [hk]

theorem ruleBody_counted (P : Provider σ) (dryRun : Bool) (region g : String)
    (rule : SecurityGroupRule) (env : σ) (v : Vars) :
    Counted dryRun v (ruleBody P dryRun region g rule env v) := by
  intro hok hd
  rcases ruleBody_cases P dryRun region g rule env v with
    ⟨_, hb⟩ | ⟨id, _, hv, _, ⟨hd', _, _, _⟩ | ⟨_, hs, ht, _⟩⟩
  · rw [hb] at hok; simp at hok
  · rw [hd] at hd'; cases hd'
  · rw [hs] at hok
    rw [hv, ht]
    cases hr : (P.revoke region rule.isEgress (revokeInput g id) env).1 with
    | ok u =>
      cases heg : rule.isEgress <;>
        simp [Vars.push, revokeEvent, ingressRevoked, egressRevoked, Event.isIngressRevoked,
          Event.isEgressRevoked]
    | error err => rw [hr] at hok; simp [revokeStatus] at hok

theorem rangeRules_counted (P : Provider σ) (dryRun : Bool) (region g : String)
    (rules : List SecurityGroupRule) (env : σ) (v : Vars) :
    Counted dryRun v (rangeRules P dryRun region g rules env v) := by
  induction rules generalizing env v with
  | nil => exact counted_ret dryRun env v
  | cons rule rest ih =>
    rw [rangeRules]
    exact counted_andThen (ruleBody_counted P dryRun region g rule env v) ih

theorem rulePage_trace (P : Provider σ) (dryRun : Bool) (region g : String)
    (rules : DescribeSecurityGroupRulesOutput) (env : σ) (v : Vars) :
    (rulePage P dryRun region g rules env v).trace =
      .DescribeSecurityGroupRules region (rulesInput g none) (.ok rules) ::
        (rangeRules P dryRun region g rules.SecurityGroupRules env v).trace := by
  simp [rulePage, Out.andThen_trace]

theorem rulePage_status (P : Provider σ) (dryRun : Bool) (region g : String)
    (rules : DescribeSecurityGroupRulesOutput) (env : σ) (v : Vars) :
    (rulePage P dryRun region g rules env v).status =
      (rangeRules P dryRun region g rules.SecurityGroupRules env v).status := by
  simp [rulePage, Out.andThen_status]

theorem rulePage_vars (P : Provider σ) (dryRun : Bool) (region g : String)
    (rules : DescribeSecurityGroupRulesOutput) (env : σ) (v : Vars) :
    (rulePage P dryRun region g rules env v).vars =
      (rangeRules P dryRun region g rules.SecurityGroupRules env v).vars := by
  simp [rulePage, Out.andThen_vars]

theorem rulePage_partitioned (P : Provider σ) (dryRun : Bool) (region g : String)
    (rules : DescribeSecurityGroupRulesOutput) (env : σ) (v : Vars) :
    Partitioned v (rulePage P dryRun region g rules env v) := by
  obtain ⟨processed, hpre, hall, hg, hi, he⟩ :=
    rangeRules_lists P dryRun region g rules.SecurityGroupRules env v
  have hl : listedRules (rulePage P dryRun region g rules env v).trace =
      rules.SecurityGroupRules := by
    rw [rulePage_trace]
    simp [listedRules,
      listedRules_of_revokes (rangeRules_quiet P dryRun region g _ env v).2.1]
  refine ⟨processed, ?_, ?_, ?_, ?_, ?_⟩
  · rw [hl]; exact hpre
  · rw [hl, rulePage_status]; exact hall
  · rw [rulePage_vars]; exact hg
  · rw [rulePage_vars]; exact hi
  · rw [rulePage_vars]; exact he

theorem rulePage_settled (P : Provider σ) (dryRun : Bool) (region g : String)
    (rules : DescribeSecurityGroupRulesOutput) (env : σ) (v : Vars) :
    Settled dryRun (rulePage P dryRun region g rules env v) := by
  intro hok hd
  subst hd
  rw [rulePage_status] at hok
  have hq := (rangeRules_quiet P false region g rules.SecurityGroupRules env v).2.1
  rw [rulePage_trace]
  simp only [owedRevokes, rulesInput_groupIDs, owedRevokes_of_revokes hq, List.append_nil]
  rw [List.filter_cons_of_neg (by simp [Event.isRevoke]), filter_isRevoke_of_revokes hq]
  exact rangeRules_trace_ok P region g _ env v hok

theorem rulePage_counted (P : Provider σ) (dryRun : Bool) (region g : String)
    (rules : DescribeSecurityGroupRulesOutput) (env : σ) (v : Vars) :
    Counted dryRun v (rulePage P dryRun region g rules env v) := by
  intro hok hd
  rw [rulePage_status] at hok
  have := rangeRules_counted P dryRun region g rules.SecurityGroupRules env v hok hd
  rw [rulePage_vars, rulePage_trace]
  simpa [ingressRevoked, egressRevoked, Event.isIngressRevoked, Event.isEgressRevoked]
    using this

theorem rulePage_stdout (P : Provider σ) (dryRun : Bool) (region g : String)
    (rules : DescribeSecurityGroupRulesOutput) (env : σ) (v : Vars) :
    (rulePage P dryRun region g rules env v).stdout = [] :=
  Out.andThen_stdout_nil rfl fun env v => (rangeRules_quiet P dryRun region g _ env v).1

theorem ruleLoop_succ_page (P : Provider σ) (dryRun : Bool) (region g : String) (fuel : Nat)
    (env : σ) (v : Vars) (rules : DescribeSecurityGroupRulesOutput)
    (h : (P.DescribeSecurityGroupRules region (rulesInput g none) env).1 = .ok rules) :
    ruleLoop P dryRun region g (fuel + 1) env v =
      (rulePage P dryRun region g rules
        (P.DescribeSecurityGroupRules region (rulesInput g none) env).2 v).andThen fun env v =>
          match rules.NextToken with
          | none => Out.ret env v
          | some _ => ruleLoop P dryRun region g fuel env v := by
  rw [ruleLoop_succ_ok P dryRun region g fuel env v rules h, rulePage, Out.andThen_assoc]

/-- The rule loop of one group keeps the locals and the trace in step. -/
theorem ruleLoop_sound (P : Provider σ) (dryRun : Bool) (region g : String) (fuel : Nat)
    (env : σ) (v : Vars) :
    Partitioned v (ruleLoop P dryRun region g fuel env v) ∧
    Settled dryRun (ruleLoop P dryRun region g fuel env v) ∧
    Counted dryRun v (ruleLoop P dryRun region g fuel env v) ∧
    (ruleLoop P dryRun region g fuel env v).stdout = [] := by
  induction fuel generalizing env v with
  | zero =>
    refine ⟨partitioned_stop _ env v, ?_, ?_, rfl⟩
    · intro h; simp [ruleLoop] at h
    · intro h; simp [ruleLoop] at h
  | succ fuel ih =>
    cases hr : (P.DescribeSecurityGroupRules region (rulesInput g none) env).1 with
    | error err =>
      rw [ruleLoop_succ_error P dryRun region g fuel env v err hr]
      refine ⟨⟨[], ?_, ?_, ?_, ?_, ?_⟩, ?_, ?_, ?_⟩
      · simp [Out.andThen_trace, listedRules]
      · simp [Out.andThen_status]
      · simp [Out.andThen_vars]
      · simp [Out.andThen_vars, ruleIDs]
      · simp [Out.andThen_vars, ruleIDs]
      · intro h; simp [Out.andThen_status] at h
      · intro h; simp [Out.andThen_status] at h
      · simp [Out.andThen_stdout]
    | ok rules =>
      rw [ruleLoop_succ_page P dryRun region g fuel env v rules hr]
      refine ⟨?_, ?_, ?_, ?_⟩
      · apply partitioned_andThen (rulePage_partitioned P dryRun region g rules _ v)
        intro env w
        split
        · exact partitioned_ret env w
        · exact (ih env w).1
      · apply settled_andThen (rulePage_settled P dryRun region g rules _ v)
        intro env w
        split
        · exact settled_ret dryRun env w
        · exact (ih env w).2.1
      · apply counted_andThen (rulePage_counted P dryRun region g rules _ v)
        intro env w
        split
        · exact counted_ret dryRun env w
        · exact (ih env w).2.2.1
      · apply Out.andThen_stdout_nil (rulePage_stdout P dryRun region g rules _ v)
        intro env w
        split
        · rfl
        · exact (ih env w).2.2.2

/-! ## The group loop -/

/-- The loop over the collected groups keeps the locals and the trace in step. -/
theorem rangeGroupIDs_sound (P : Provider σ) (fuel : Nat) (dryRun : Bool) (region : String)
    (gs : List String) (env : σ) (v : Vars) :
    Partitioned v (rangeGroupIDs P fuel dryRun region gs env v) ∧
    Settled dryRun (rangeGroupIDs P fuel dryRun region gs env v) ∧
    Counted dryRun v (rangeGroupIDs P fuel dryRun region gs env v) ∧
    (rangeGroupIDs P fuel dryRun region gs env v).stdout = [] := by
  induction gs generalizing env v with
  | nil => exact ⟨partitioned_ret env v, settled_ret dryRun env v, counted_ret dryRun env v, rfl⟩
  | cons g rest ih =>
    rw [rangeGroupIDs]
    have h := ruleLoop_sound P dryRun region g fuel env v
    exact ⟨partitioned_andThen h.1 fun env w => (ih env w).1,
      settled_andThen h.2.1 fun env w => (ih env w).2.1,
      counted_andThen h.2.2.1 fun env w => (ih env w).2.2.1,
      Out.andThen_stdout_nil h.2.2.2 fun env w => (ih env w).2.2.2⟩

theorem scanned_andThen {v : Vars} {a : Out σ} {k : σ → Vars → Out σ}
    (ha : Scanned v a) (hk : ∀ env w, Scanned w (k env w)) : Scanned v (a.andThen k) := by
  by_cases hok : a.status = .ok
  · obtain ⟨⟨sa, _, halla, hida⟩, hia, hea, hsa⟩ := ha
    obtain ⟨⟨sb, hpreb, hallb, hidb⟩, hib, heb, hsb⟩ := hk a.env a.vars
    rw [Out.andThen_ok k hok]
    have hsa' := halla (by rw [hok]; simp)
    refine ⟨⟨listedGroups a.trace ++ sb, ?_, ?_, ?_⟩, ?_, ?_, ?_⟩
    · simp only [listedGroups_append]
      exact (List.prefix_append_right_inj _).2 hpreb
    · intro h
      simp only [listedGroups_append]
      rw [hallb h]
    · simp only [hidb, hida, hsa', List.filter_append, List.map_append, List.append_assoc]
    · simp only [hib, hia]
    · simp only [heb, hea]
    · simp only [hsa, hsb, List.append_nil]
  · rw [Out.andThen_not_ok k hok]
    exact ha

theorem scanned_ret (env : σ) (v : Vars) : Scanned v (Out.ret env v) :=
  ⟨⟨[], List.prefix_refl _, fun _ => rfl, by simp⟩, rfl, rfl, rfl⟩

theorem scanned_of_trace_nil {v : Vars} {o : Out σ} (ht : o.trace = []) (hv : o.vars = v)
    (hs : o.stdout = []) : Scanned v o := by
  refine ⟨⟨[], ?_, ?_, ?_⟩, ?_, ?_, hs⟩
  · rw [ht]; exact List.prefix_refl _
  · intro _; rw [ht]; rfl
  · rw [hv]; simp
  · rw [hv]
  · rw [hv]

/-- The loop over the groups of a page changes nothing but `groupIDs`, and ends
normally or on a nil pointer. -/
theorem rangeGroups_frame (gs : List SecurityGroup) (env : σ) (v : Vars) :
    (rangeGroups gs env v).vars.ingressRuleIDs = v.ingressRuleIDs ∧
    (rangeGroups gs env v).vars.egressRuleIDs = v.egressRuleIDs ∧
    (rangeGroups gs env v).stdout = [] ∧
    (rangeGroups gs env v).env = env ∧
    ((rangeGroups gs env v).status = .ok ∨ (rangeGroups gs env v).status = .nilDeref) := by
  induction gs generalizing env v with
  | nil => simp [rangeGroups]
  | cons sg rest ih =>
    rw [rangeGroups, Out.andThen_status, Out.andThen_vars, Out.andThen_stdout,
      Out.andThen_env]
    rcases sg with ⟨gid, gname, vpc⟩
    cases gname with
    | none => simp [groupBody]
    | some name =>
      by_cases hdef : name = "default"
      · cases gid with
        | none => simp [groupBody, hdef]
        | some groupId =>
          cases vpc with
          | none => simp [groupBody, hdef]
          | some vpcId =>
            simpa [groupBody, hdef] using ih env { v with groupIDs := v.groupIDs ++ [groupId] }
      · simpa [groupBody, hdef] using ih env v

theorem groupPage_scanned (region : String) (groups : DescribeSecurityGroupsOutput) (env : σ)
    (v : Vars) : Scanned v (groupPage region groups env v) := by
  obtain ⟨scanned, hpre, hall, hids⟩ := rangeGroups_groupIDs groups.SecurityGroups env v
  obtain ⟨hi, he, hs, _, hst⟩ := rangeGroups_frame groups.SecurityGroups env v
  have hl : listedGroups (groupPage region groups env v).trace = groups.SecurityGroups := by
    simp [groupPage, Out.andThen_trace, listedGroups, rangeGroups_trace]
  refine ⟨⟨scanned, ?_, ?_, ?_⟩, ?_, ?_, ?_⟩
  · rw [hl]; exact hpre
  · rw [hl]
    intro h
    apply hall
    rcases hst with h1 | h1
    · exact h1
    · exact absurd (by simpa [groupPage, Out.andThen_status] using h1) h
  · simpa [groupPage, Out.andThen_vars] using hids
  · simpa [groupPage, Out.andThen_vars] using hi
  · simpa [groupPage, Out.andThen_vars] using he
  · simpa [groupPage, Out.andThen_stdout] using hs

theorem groupLoop_succ_error (P : Provider σ) (region : String) (fuel : Nat)
    (env : σ) (v : Vars) (err : String)
    (h : (P.DescribeSecurityGroups region { NextToken := none } env).1 = .error err) :
    groupLoop P region (fuel + 1) env v =
      (Out.call (.DescribeSecurityGroups region { NextToken := none } (.error err))
        (P.DescribeSecurityGroups region { NextToken := none } env).2 v).andThen
        (Out.fatalf ("failed to describe security groups: " ++ err)) := by
  rw [groupLoop]
  simp only [h]

theorem groupLoop_succ_page (P : Provider σ) (region : String) (fuel : Nat)
    (env : σ) (v : Vars) (groups : DescribeSecurityGroupsOutput)
    (h : (P.DescribeSecurityGroups region { NextToken := none } env).1 = .ok groups) :
    groupLoop P region (fuel + 1) env v =
      (groupPage region groups
        (P.DescribeSecurityGroups region { NextToken := none } env).2 v).andThen fun env v =>
          match groups.NextToken with
          | none => Out.ret env v
          | some _ => groupLoop P region fuel env v := by
  rw [groupLoop, groupPage, Out.andThen_assoc]
  simp only [h]

theorem groupLoop_scanned (P : Provider σ) (region : String) (fuel : Nat) (env : σ)
    (v : Vars) : Scanned v (groupLoop P region fuel env v) := by
  induction fuel generalizing env v with
  | zero => exact scanned_of_trace_nil rfl rfl rfl
  | succ fuel ih =>
    cases hr : (P.DescribeSecurityGroups region { NextToken := none } env).1 with
    | error err =>
      rw [groupLoop_succ_error P region fuel env v err hr]
      refine ⟨⟨[], ?_, ?_, ?_⟩, ?_, ?_, ?_⟩ <;>
        simp [Out.andThen_trace, Out.andThen_status, Out.andThen_vars, Out.andThen_stdout,
          listedGroups]
    | ok groups =>
      rw [groupLoop_succ_page P region fuel env v groups hr]
      apply scanned_andThen (groupPage_scanned region groups _ v)
      intro env w
      split
      · exact scanned_ret env w
      · exact ih env w

theorem groupLoop_failLast (P : Provider σ) (region : String) (fuel : Nat) (env : σ)
    (v : Vars) : FailLast (groupLoop P region fuel env v) := by
  induction fuel generalizing env v with
  | zero => exact failLast_of_trace_nil rfl
  | succ fuel ih =>
    cases hr : (P.DescribeSecurityGroups region { NextToken := none } env).1 with
    | error err =>
      rw [groupLoop_succ_error P region fuel env v err hr]
      intro pre ev post htr hev
      simp only [Out.andThen_trace, Out.call_trace, Out.call_status, if_true,
        Out.fatalf_trace, List.append_nil] at htr
      cases pre with
      | nil =>
        simp only [List.nil_append, List.cons.injEq] at htr
        obtain ⟨rfl, rfl⟩ := htr
        exact ⟨rfl, by simp [Out.andThen_status, Event.fatalMsg]⟩
      | cons x pre => simp at htr
    | ok groups =>
      rw [groupLoop_succ_page P region fuel env v groups hr]
      apply failLast_andThen
      · intro pre ev post htr hev
        simp only [groupPage, Out.andThen_trace, Out.call_trace, Out.call_status, if_true,
          rangeGroups_trace, List.append_nil] at htr
        cases pre with
        | nil =>
          simp only [List.nil_append, List.cons.injEq] at htr
          obtain ⟨rfl, _⟩ := htr
          simp [Event.failed] at hev
        | cons x pre => simp at htr
      · intro env w
        split
        · exact failLast_of_trace_nil rfl
        · exact ih env w

/-! ## The functions `runInRegion` and `run` -/

/-- The four ways `runInRegion` can go: the configuration does not load; the
group loop does not end normally; the loop over the groups does not end
normally; or the summary line is printed. -/
theorem runInRegion_cases (P : Provider σ) (fuel : Nat) (dryRun : Bool) (region : String)
    (env : σ) :
    (∃ err, (P.LoadDefaultConfig region env).1 = some err ∧
      (runInRegion P fuel dryRun region env).status =
        .fatal ("unable to load SDK config: " ++ err) ∧
      (runInRegion P fuel dryRun region env).trace = [] ∧
      (runInRegion P fuel dryRun region env).stdout = [] ∧
      (runInRegion P fuel dryRun region env).vars =
        { groupIDs := [], ingressRuleIDs := [], egressRuleIDs := [] }) ∨
    ((P.LoadDefaultConfig region env).1 = none ∧
      (groupStage P fuel region env).status ≠ .ok ∧
      (runInRegion P fuel dryRun region env).status = (groupStage P fuel region env).status ∧
      (runInRegion P fuel dryRun region env).trace = (groupStage P fuel region env).trace ∧
      (runInRegion P fuel dryRun region env).stdout = [] ∧
      (runInRegion P fuel dryRun region env).vars = (groupStage P fuel region env).vars) ∨
    ((P.LoadDefaultConfig region env).1 = none ∧
      (groupStage P fuel region env).status = .ok ∧
      (ruleStage P fuel dryRun region env).status ≠ .ok ∧
      (runInRegion P fuel dryRun region env).status =
        (ruleStage P fuel dryRun region env).status ∧
      (runInRegion P fuel dryRun region env).trace =
        (groupStage P fuel region env).trace ++ (ruleStage P fuel dryRun region env).trace ∧
      (runInRegion P fuel dryRun region env).stdout = [] ∧
      (runInRegion P fuel dryRun region env).vars = (ruleStage P fuel dryRun region env).vars) ∨
    ((P.LoadDefaultConfig region env).1 = none ∧
      (groupStage P fuel region env).status = .ok ∧
      (ruleStage P fuel dryRun region env).status = .ok ∧
      (runInRegion P fuel dryRun region env).status = .ok ∧
      (runInRegion P fuel dryRun region env).trace =
        (groupStage P fuel region env).trace ++ (ruleStage P fuel dryRun region env).trace ∧
      (runInRegion P fuel dryRun region env).stdout =
        [summaryLine (ruleStage P fuel dryRun region env).vars.ingressRuleIDs.length
          (ruleStage P fuel dryRun region env).vars.egressRuleIDs.length region] ∧
      (runInRegion P fuel dryRun region env).vars = (ruleStage P fuel dryRun region env).vars) := by
  have hGs := (groupLoop_scanned P region fuel (P.LoadDefaultConfig region env).2
    { groupIDs := [], ingressRuleIDs := [], egressRuleIDs := [] }).2.2.2
  have hRs := (rangeGroupIDs_sound P fuel dryRun region
    (groupStage P fuel region env).vars.groupIDs (groupStage P fuel region env).env
    (groupStage P fuel region env).vars).2.2.2
  cases hc : (P.LoadDefaultConfig region env).1 with
  | some err =>
    left
    refine ⟨err, rfl, ?_⟩
    simp [runInRegion, hc, Out.andThen_status, Out.andThen_trace, Out.andThen_stdout,
      Out.andThen_vars]
  | none =>
    right
    by_cases hG : (groupStage P fuel region env).status = .ok
    · right
      have hG' := hG
      unfold groupStage at hG' hGs
      by_cases hR : (ruleStage P fuel dryRun region env).status = .ok
      · right
        have hR' := hR
        unfold ruleStage groupStage at hR' hRs
        refine ⟨rfl, hG, hR, ?_⟩
        simp [runInRegion, hc, Out.andThen_status, Out.andThen_trace, Out.andThen_stdout,
          Out.andThen_vars, Out.andThen_env, ruleStage, groupStage, hG', hR', hGs, hRs]
      · left
        have hR' := hR
        unfold ruleStage groupStage at hR' hRs
        refine ⟨rfl, hG, hR, ?_⟩
        simp [runInRegion, hc, Out.andThen_status, Out.andThen_trace, Out.andThen_stdout,
          Out.andThen_vars, Out.andThen_env, ruleStage, groupStage, hG', hR', hGs, hRs]
    · left
      have hG' := hG
      unfold groupStage at hG' hGs
      refine ⟨rfl, hG, ?_⟩
      simp [runInRegion, hc, Out.andThen_status, Out.andThen_trace, Out.andThen_stdout,
        Out.andThen_vars, Out.andThen_env, groupStage, hG', hGs]

theorem run_append (P : Provider σ) (fuel : Nat) (dryRun : Bool) (pre post : List String)
    (env : σ) :
    run P fuel dryRun (pre ++ post) env =
      (run P fuel dryRun pre env).andThen fun env _ => run P fuel dryRun post env := by
  induction pre generalizing env with
  | nil => simp [run, Out.andThen, Out.ret]
  | cons region rest ih =>
    rw [List.cons_append, run, run, Out.andThen_assoc]
    congr 1
    funext env _
    exact ih env

theorem ruleEvent_groupIDs {dryRun : Bool} {region g : String} {ev : Event}
    (h : RuleEvent dryRun region g ev) : ev.groupIDs = [g] := by
  cases h <;> simp [Event.groupIDs, rulesInput_groupIDs, revokeInput]

theorem ruleEvent_requestToken {dryRun : Bool} {region g : String} {ev : Event}
    (h : RuleEvent dryRun region g ev) : ev.requestToken = none := by
  cases h <;> simp [Event.requestToken, rulesInput]

theorem ruleEvent_isListing_of_dryRun {region g : String} {ev : Event}
    (h : RuleEvent true region g ev) : ev.isListing = true ∧ ev.isRevoke = false := by
  cases h with
  | rules r => exact ⟨rfl, rfl⟩
  | ingress h => cases h
  | egress h => cases h

theorem ruleEvent_listedGroups {dryRun : Bool} {region : String} {t : List Event}
    (h : ∀ ev ∈ t, ∃ g, RuleEvent dryRun region g ev) : listedGroups t = [] := by
  induction t with
  | nil => rfl
  | cons ev t ih =>
    obtain ⟨g, hg⟩ := h ev (List.mem_cons_self _ _)
    have ht := ih fun e he => h e (List.mem_cons_of_mem _ he)
    cases hg <;> simpa [Tightener.listedGroups] using ht

/-- Every call of `runInRegion` is a group listing without a token, or a call of
the rule stage for one of the group IDs collected by the group loop. -/
theorem runInRegion_events (P : Provider σ) (fuel : Nat) (dryRun : Bool) (region : String)
    (env : σ) :
    ∀ ev ∈ (runInRegion P fuel dryRun region env).trace,
      (∃ r, ev = .DescribeSecurityGroups region { NextToken := none } r) ∨
      ∃ g ∈ (groupStage P fuel region env).vars.groupIDs, RuleEvent dryRun region g ev := by
  intro ev hev
  have hG := groupLoop_events P region fuel (P.LoadDefaultConfig region env).2
    { groupIDs := [], ingressRuleIDs := [], egressRuleIDs := [] }
  have hR := rangeGroupIDs_events P fuel dryRun region
    (groupStage P fuel region env).vars.groupIDs (groupStage P fuel region env).env
    (groupStage P fuel region env).vars
  rcases runInRegion_cases P fuel dryRun region env with
    ⟨_, _, _, ht, _⟩ | ⟨_, _, _, ht, _⟩ | ⟨_, _, _, _, ht, _⟩ | ⟨_, _, _, _, ht, _⟩
  · rw [ht] at hev; simp at hev
  · rw [ht] at hev; exact Or.inl (hG ev hev)
  · rw [ht] at hev
    rcases List.mem_append.1 hev with h | h
    · exact Or.inl (hG ev h)
    · exact Or.inr (hR ev h)
  · rw [ht] at hev
    rcases List.mem_append.1 hev with h | h
    · exact Or.inl (hG ev h)
    · exact Or.inr (hR ev h)

theorem groupEvents_read {region : String} {t : List Event}
    (h : ∀ ev ∈ t, ∃ r, ev = .DescribeSecurityGroups region { NextToken := none } r) :
    listedRules t = [] ∧ owedRevokes t = [] ∧ t.filter Event.isRevoke = [] ∧
      ingressRevoked t = 0 ∧ egressRevoked t = 0 := by
  induction t with
  | nil => exact ⟨rfl, rfl, rfl, rfl, rfl⟩
  | cons ev t ih =>
    obtain ⟨r, rfl⟩ := h ev (List.mem_cons_self _ _)
    obtain ⟨h1, h2, h3, h4, h5⟩ := ih fun e he => h e (List.mem_cons_of_mem _ he)
    refine ⟨?_, ?_, ?_, ?_, ?_⟩
    · simpa [listedRules] using h1
    · simpa [owedRevokes] using h2
    · simpa [Event.isRevoke] using h3
    · simpa [ingressRevoked, Event.isIngressRevoked] using h4
    · simpa [egressRevoked, Event.isEgressRevoked] using h5

theorem groupStage_scanned (P : Provider σ) (fuel : Nat) (region : String) (env : σ) :
    Scanned { groupIDs := [], ingressRuleIDs := [], egressRuleIDs := [] }
      (groupStage P fuel region env) :=
  groupLoop_scanned P region fuel _ _

theorem groupStage_events (P : Provider σ) (fuel : Nat) (region : String) (env : σ) :
    ∀ ev ∈ (groupStage P fuel region env).trace,
      ∃ r, ev = .DescribeSecurityGroups region { NextToken := none } r :=
  groupLoop_events P region fuel _ _

theorem ruleStage_events (P : Provider σ) (fuel : Nat) (dryRun : Bool) (region : String)
    (env : σ) :
    ∀ ev ∈ (ruleStage P fuel dryRun region env).trace,
      ∃ g ∈ (groupStage P fuel region env).vars.groupIDs, RuleEvent dryRun region g ev :=
  rangeGroupIDs_events P fuel dryRun region _ _ _

theorem ruleStage_sound (P : Provider σ) (fuel : Nat) (dryRun : Bool) (region : String)
    (env : σ) :
    Partitioned (groupStage P fuel region env).vars (ruleStage P fuel dryRun region env) ∧
    Settled dryRun (ruleStage P fuel dryRun region env) ∧
    Counted dryRun (groupStage P fuel region env).vars (ruleStage P fuel dryRun region env) ∧
    (ruleStage P fuel dryRun region env).stdout = [] :=
  rangeGroupIDs_sound P fuel dryRun region _ _ _

theorem ruleStage_listedGroups (P : Provider σ) (fuel : Nat) (dryRun : Bool) (region : String)
    (env : σ) : listedGroups (ruleStage P fuel dryRun region env).trace = [] :=
  ruleEvent_listedGroups fun ev hev =>
    let ⟨g, _, hg⟩ := ruleStage_events P fuel dryRun region env ev hev
    ⟨g, hg⟩

/-- What `runInRegion` leaves in `groupIDs`, and which group IDs its calls carry. -/
theorem runInRegion_groupIDs (P : Provider σ) (fuel : Nat) (dryRun : Bool) (region : String)
    (env : σ) :
    ∃ scanned, scanned <+: listedGroups (runInRegion P fuel dryRun region env).trace ∧
      ((runInRegion P fuel dryRun region env).status ≠ .nilDeref →
        scanned = listedGroups (runInRegion P fuel dryRun region env).trace) ∧
      (runInRegion P fuel dryRun region env).vars.groupIDs.map some =
        (scanned.filter SecurityGroup.isDefault).map (·.GroupId) ∧
      ∀ ev ∈ (runInRegion P fuel dryRun region env).trace, ∀ g ∈ ev.groupIDs,
        some g ∈ (scanned.filter SecurityGroup.isDefault).map (·.GroupId) := by
  obtain ⟨⟨scanned, hpre, hall, hids⟩, _, _, _⟩ := groupStage_scanned P fuel region env
  simp only [List.map_nil, List.nil_append] at hids
  have hGev := groupStage_events P fuel region env
  have hRev := ruleStage_events P fuel dryRun region env
  have hRl := ruleStage_listedGroups P fuel dryRun region env
  have hRg := (ruleStage_sound P fuel dryRun region env).1
  obtain ⟨_, _, _, hRg, _, _⟩ := hRg
  have key : ∀ ev, (∃ r, ev = Event.DescribeSecurityGroups region { NextToken := none } r) →
      ∀ g ∈ ev.groupIDs,
        some g ∈ (scanned.filter SecurityGroup.isDefault).map (·.GroupId) := by
    rintro ev ⟨r, rfl⟩ g hg
    simp [Event.groupIDs] at hg
  have key2 : ∀ ev, (∃ g ∈ (groupStage P fuel region env).vars.groupIDs,
      RuleEvent dryRun region g ev) → ∀ g ∈ ev.groupIDs,
        some g ∈ (scanned.filter SecurityGroup.isDefault).map (·.GroupId) := by
    rintro ev ⟨g', hg', hev⟩ g hg
    rw [ruleEvent_groupIDs hev, List.mem_singleton] at hg
    subst hg
    rw [← hids]
    exact List.mem_map_of_mem _ hg'
  rcases runInRegion_cases P fuel dryRun region env with
    ⟨_, _, _, ht, _, hv⟩ | ⟨_, _, hs, ht, _, hv⟩ | ⟨_, hG, _, hs, ht, _, hv⟩ |
    ⟨_, hG, _, hs, ht, _, hv⟩
  · refine ⟨[], List.nil_prefix, ?_, ?_, ?_⟩
    · intro _; rw [ht]; rfl
    · rw [hv]; rfl
    · rw [ht]; simp
  · refine ⟨scanned, ?_, ?_, ?_, ?_⟩
    · rw [ht]; exact hpre
    · rw [ht, hs]; exact hall
    · rw [hv]; exact hids
    · rw [ht]; exact fun ev hev => key ev (hGev ev hev)
  · refine ⟨scanned, ?_, ?_, ?_, ?_⟩
    · rw [ht, listedGroups_append, hRl, List.append_nil]; exact hpre
    · intro _
      rw [ht, listedGroups_append, hRl, List.append_nil]
      exact hall (by rw [hG]; simp)
    · rw [hv, hRg]; exact hids
    · rw [ht]
      intro ev hev
      rcases List.mem_append.1 hev with h | h
      · exact key ev (hGev ev h)
      · exact key2 ev (hRev ev h)
  · refine ⟨scanned, ?_, ?_, ?_, ?_⟩
    · rw [ht, listedGroups_append, hRl, List.append_nil]; exact hpre
    · intro _
      rw [ht, listedGroups_append, hRl, List.append_nil]
      exact hall (by rw [hG]; simp)
    · rw [hv, hRg]; exact hids
    · rw [ht]
      intro ev hev
      rcases List.mem_append.1 hev with h | h
      · exact key ev (hGev ev h)
      · exact key2 ev (hRev ev h)

/-- The locals and the trace of `runInRegion` are in step. -/
theorem runInRegion_sound (P : Provider σ) (fuel : Nat) (dryRun : Bool) (region : String)
    (env : σ) :
    (∃ processed, processed <+: listedRules (runInRegion P fuel dryRun region env).trace ∧
      ((runInRegion P fuel dryRun region env).status = .ok →
        processed = listedRules (runInRegion P fuel dryRun region env).trace) ∧
      (runInRegion P fuel dryRun region env).vars.ingressRuleIDs.map some =
        ruleIDs false processed ∧
      (runInRegion P fuel dryRun region env).vars.egressRuleIDs.map some =
        ruleIDs true processed) ∧
    Settled dryRun (runInRegion P fuel dryRun region env) ∧
    Counted dryRun { groupIDs := [], ingressRuleIDs := [], egressRuleIDs := [] }
      (runInRegion P fuel dryRun region env) := by
  obtain ⟨_, hGi, hGe, _⟩ := groupStage_scanned P fuel region env
  obtain ⟨hl, ho, hf, hci, hce⟩ := groupEvents_read (groupStage_events P fuel region env)
  obtain ⟨⟨processed, hpre, hall, _, hi, he⟩, hset, hcnt, _⟩ :=
    ruleStage_sound P fuel dryRun region env
  rw [hGi] at hi
  rw [hGe] at he
  simp only [List.map_nil, List.nil_append] at hi he
  rcases runInRegion_cases P fuel dryRun region env with
    ⟨_, _, hs, ht, _, hv⟩ | ⟨_, hG, hs, ht, _, hv⟩ | ⟨_, _, hR, hs, ht, _, hv⟩ |
    ⟨_, _, hR, hs, ht, _, hv⟩
  · refine ⟨⟨[], ?_, ?_, ?_, ?_⟩, ?_, ?_⟩
    · exact List.nil_prefix
    · intro _; rw [ht]; rfl
    · rw [hv]; rfl
    · rw [hv]; rfl
    · intro h; rw [hs] at h; cases h
    · intro h; rw [hs] at h; cases h
  · refine ⟨⟨[], ?_, ?_, ?_, ?_⟩, ?_, ?_⟩
    · exact List.nil_prefix
    · intro _; rw [ht, hl]
    · rw [hv, hGi]; rfl
    · rw [hv, hGe]; rfl
    · intro h; rw [hs] at h; exact absurd h hG
    · intro h; rw [hs] at h; exact absurd h hG
  · refine ⟨⟨processed, ?_, ?_, ?_, ?_⟩, ?_, ?_⟩
    · rw [ht, listedRules_append, hl]; exact hpre
    · intro h; rw [hs] at h; exact absurd h hR
    · rw [hv]; exact hi
    · rw [hv]; exact he
    · intro h; rw [hs] at h; exact absurd h hR
    · intro h; rw [hs] at h; exact absurd h hR
  · refine ⟨⟨processed, ?_, ?_, ?_, ?_⟩, ?_, ?_⟩
    · rw [ht, listedRules_append, hl]; exact hpre
    · intro _; rw [ht, listedRules_append, hl]; exact hall hR
    · rw [hv]; exact hi
    · rw [hv]; exact he
    · intro _ hd
      rw [ht, List.filter_append, hf, owedRevokes_append, ho]
      exact hset hR hd
    · intro _ hd
      obtain ⟨h1, h2⟩ := hcnt hR hd
      rw [hv, ht]
      simp only [ingressRevoked, egressRevoked, List.countP_append] at *
      rw [hGi] at h1
      rw [hGe] at h2
      omega

theorem ruleIDs_length_add (rs : List SecurityGroupRule) :
    (ruleIDs false rs).length + (ruleIDs true rs).length = rs.length := by
  simp only [ruleIDs, List.length_map]
  induction rs with
  | nil => rfl
  | cons r rs ih =>
    simp only [List.filter_cons, List.length_cons]
    cases r.isEgress <;> simp at ih ⊢ <;> omega

theorem ruleIDs_length (egress : Bool) (rs : List SecurityGroupRule) :
    (ruleIDs egress rs).length = rs.countP fun r => r.isEgress == egress := by
  simp [ruleIDs, List.countP_eq_length_filter]

theorem ruleIDs_disjoint (rs : List SecurityGroupRule)
    (h : (rs.map (·.SecurityGroupRuleId)).Nodup) (id : Option String)
    (hi : id ∈ ruleIDs false rs) : id ∉ ruleIDs true rs := by
  intro he
  simp only [ruleIDs, List.mem_map, List.mem_filter] at hi he
  obtain ⟨r₁, ⟨hr₁, hd₁⟩, rfl⟩ := hi
  obtain ⟨r₂, ⟨hr₂, hd₂⟩, heq⟩ := he
  have := List.inj_on_of_nodup_map h hr₂ hr₁ heq
  subst this
  simp_all

theorem runInRegion_failLast (P : Provider σ) (fuel : Nat) (dryRun : Bool) (region : String)
    (env : σ) : FailLast (runInRegion P fuel dryRun region env) := by
  unfold runInRegion
  apply failLast_andThen (failLast_of_trace_nil rfl)
  intro env v
  apply failLast_andThen
  · split <;> exact failLast_of_trace_nil rfl
  intro env v
  apply failLast_andThen (groupLoop_failLast P region fuel env v)
  intro env v
  apply failLast_andThen (rangeGroupIDs_failLast P fuel dryRun region _ env v)
  intro env v
  exact failLast_of_trace_nil rfl

/-- The summary line is printed only by a run that ends normally. -/
theorem runInRegion_stdout_of_not_ok (P : Provider σ) (fuel : Nat) (dryRun : Bool)
    (region : String) (env : σ) (h : (runInRegion P fuel dryRun region env).status ≠ .ok) :
    (runInRegion P fuel dryRun region env).stdout = [] := by
  rcases runInRegion_cases P fuel dryRun region env with
    ⟨_, _, _, _, hso, _⟩ | ⟨_, _, _, _, hso, _⟩ | ⟨_, _, _, _, _, hso, _⟩ | ⟨_, _, _, hs, _⟩
  · exact hso
  · exact hso
  · exact hso
  · exact absurd hs h

/-- A region that does not end normally ends the whole run: the regions after
it add nothing. -/
theorem run_stops (P : Provider σ) (fuel : Nat) (dryRun : Bool) (pre : List String)
    (region : String) (post : List String) (env : σ)
    (hpre : (run P fuel dryRun pre env).status = .ok)
    (hbad : (runInRegion P fuel dryRun region (run P fuel dryRun pre env).env).status ≠ .ok) :
    (run P fuel dryRun (pre ++ region :: post) env).status =
      (runInRegion P fuel dryRun region (run P fuel dryRun pre env).env).status ∧
    (run P fuel dryRun (pre ++ region :: post) env).trace =
      (run P fuel dryRun pre env).trace ++
        (runInRegion P fuel dryRun region (run P fuel dryRun pre env).env).trace ∧
    (run P fuel dryRun (pre ++ region :: post) env).stdout =
      (run P fuel dryRun pre env).stdout ++
        (runInRegion P fuel dryRun region (run P fuel dryRun pre env).env).stdout := by
  rw [run_append, Out.andThen_ok _ hpre]
  simp only [run]
  rw [Out.andThen_not_ok _ hbad]
  exact ⟨rfl, rfl, rfl⟩

/-! ## Deterministic providers that never fail -/

/-- The group loop does not end normally when each reply carries a token. -/
theorem static_groupLoop_never_ok
    (groups : String → DescribeSecurityGroupsInput → DescribeSecurityGroupsOutput)
    (rules : String → DescribeSecurityGroupRulesInput → DescribeSecurityGroupRulesOutput)
    (region : String) (h : (groups region { NextToken := none }).NextToken ≠ none)
    (k : Nat) (env : Unit) (v : Vars) :
    (groupLoop (Provider.static groups rules) region k env v).status ≠ .ok := by
  induction k generalizing env v with
  | zero => simp [groupLoop]
  | succ k ih =>
    rw [groupLoop_succ_page _ region k env v (groups region { NextToken := none }) rfl,
      Out.andThen_status]
    split
    · split
      · rename_i hn; exact absurd hn h
      · exact ih _ _
    · assumption

/-- The rule loop of a group does not end normally when each reply carries a token. -/
theorem static_ruleLoop_never_ok
    (groups : String → DescribeSecurityGroupsInput → DescribeSecurityGroupsOutput)
    (rules : String → DescribeSecurityGroupRulesInput → DescribeSecurityGroupRulesOutput)
    (dryRun : Bool) (region g : String)
    (h : (rules region (rulesInput g none)).NextToken ≠ none)
    (k : Nat) (env : Unit) (v : Vars) :
    (ruleLoop (Provider.static groups rules) dryRun region g k env v).status ≠ .ok := by
  induction k generalizing env v with
  | zero => simp [ruleLoop]
  | succ k ih =>
    rw [ruleLoop_succ_page _ dryRun region g k env v (rules region (rulesInput g none)) rfl,
      Out.andThen_status]
    split
    · split
      · rename_i hn; exact absurd hn h
      · exact ih _ _
    · assumption

theorem rangeGroupIDs_ok_imp (P : Provider σ) (fuel : Nat) (dryRun : Bool) (region : String)
    (gs : List String) (env : σ) (v : Vars)
    (hok : (rangeGroupIDs P fuel dryRun region gs env v).status = .ok) :
    ∀ g ∈ gs, ∃ env₁ v₁, (ruleLoop P dryRun region g fuel env₁ v₁).status = .ok := by
  induction gs generalizing env v with
  | nil => simp
  | cons g₀ rest ih =>
    rw [rangeGroupIDs, Out.andThen_status] at hok
    by_cases h0 : (ruleLoop P dryRun region g₀ fuel env v).status = .ok
    · rw [if_pos h0] at hok
      intro g hg
      rcases List.mem_cons.1 hg with rfl | hg
      · exact ⟨env, v, h0⟩
      · exact ih _ _ hok g hg
    · rw [if_neg h0] at hok
      exact absurd hok h0

theorem groupLoop_succ_trace (P : Provider σ) (region : String) (k : Nat) (env : σ) (v : Vars) :
    ∃ rest, (groupLoop P region (k + 1) env v).trace =
      .DescribeSecurityGroups region { NextToken := none }
        (P.DescribeSecurityGroups region { NextToken := none } env).1 :: rest := by
  rw [groupLoop]
  simp only [Out.andThen_trace, Out.call_trace, Out.call_status, if_true,
    List.singleton_append]
  exact ⟨_, rfl⟩

/-- Against a deterministic provider that never fails, `runInRegion` never
reaches its summary line when the first page of groups carries a token, or when
the first page of rules of a listed default group does. -/
theorem static_runInRegion_never_ok
    (groups : String → DescribeSecurityGroupsInput → DescribeSecurityGroupsOutput)
    (rules : String → DescribeSecurityGroupRulesInput → DescribeSecurityGroupRulesOutput)
    (fuel : Nat) (dryRun : Bool) (region : String)
    (h : (groups region { NextToken := none }).NextToken ≠ none ∨
      ∃ g, (rules region (rulesInput g none)).NextToken ≠ none ∧
        ∃ sg ∈ (groups region { NextToken := none }).SecurityGroups,
          sg.GroupName = some "default" ∧ sg.GroupId = some g) :
    (runInRegion (Provider.static groups rules) fuel dryRun region ()).status ≠ .ok ∧
    (runInRegion (Provider.static groups rules) fuel dryRun region ()).stdout = [] := by
  have key : (runInRegion (Provider.static groups rules) fuel dryRun region ()).status ≠
      .ok := by
    rcases runInRegion_cases (Provider.static groups rules) fuel dryRun region () with
      ⟨_, _, hs, _⟩ | ⟨_, hG, hs, _⟩ | ⟨_, _, hR, hs, _⟩ | ⟨_, hG, hR, _⟩
    · rw [hs]; simp
    · rw [hs]; exact hG
    · rw [hs]; exact hR
    · exfalso
      rcases h with h | ⟨g, hg, sg, hsg, hname, hid⟩
      · exact static_groupLoop_never_ok groups rules region h fuel _ _ hG
      · obtain ⟨⟨scanned, _, hall, hids⟩, _⟩ :=
          groupStage_scanned (Provider.static groups rules) fuel region ()
        have hsc := hall (by rw [hG]; simp)
        have hmem : sg ∈ listedGroups
            (groupStage (Provider.static groups rules) fuel region ()).trace := by
          cases fuel with
          | zero => simp [groupStage, groupLoop] at hG
          | succ k =>
            obtain ⟨rest, hrest⟩ := groupLoop_succ_trace (Provider.static groups rules) region k
              ((Provider.static groups rules).LoadDefaultConfig region ()).2
              { groupIDs := [], ingressRuleIDs := [], egressRuleIDs := [] }
            rw [groupStage, hrest]
            simp only [Provider.static, listedGroups, List.mem_append]
            exact Or.inl hsg
        have hgin : g ∈ (groupStage (Provider.static groups rules) fuel region ()).vars.groupIDs := by
          have : some g ∈ (scanned.filter SecurityGroup.isDefault).map (·.GroupId) := by
            rw [hsc]
            exact List.mem_map.2 ⟨sg, List.mem_filter.2
              ⟨hmem, by simp [SecurityGroup.isDefault, hname]⟩, hid⟩
          simp only [List.map_nil, List.nil_append] at hids
          rw [← hids] at this
          simpa using this
        obtain ⟨env₁, v₁, hok⟩ := rangeGroupIDs_ok_imp _ fuel dryRun region _ _ _ hR g hgin
        exact static_ruleLoop_never_ok groups rules dryRun region g hg fuel env₁ v₁ hok
  exact ⟨key, runInRegion_stdout_of_not_ok _ fuel dryRun region () key⟩

theorem rangeGroups_ok_of_populated (gs : List SecurityGroup) (env : σ) (v : Vars)
    (h : ∀ sg ∈ gs, sg.GroupName ≠ none ∧ sg.GroupId ≠ none ∧ sg.VpcId ≠ none) :
    (rangeGroups gs env v).status = .ok := by
  induction gs generalizing env v with
  | nil => rfl
  | cons sg rest ih =>
    obtain ⟨h1, h2, h3⟩ := h sg (List.mem_cons_self _ _)
    have hrest := fun env v => ih env v fun s hs => h s (List.mem_cons_of_mem _ hs)
    rw [rangeGroups, Out.andThen_status]
    rcases sg with ⟨gid, gname, vpc⟩
    cases gname with
    | none => exact absurd rfl h1
    | some name =>
      cases gid with
      | none => exact absurd rfl h2
      | some groupId =>
        cases vpc with
        | none => exact absurd rfl h3
        | some vpcId =>
          by_cases hdef : name = "default"
          · simpa [groupBody, hdef] using hrest _ _
          · simpa [groupBody, hdef] using hrest _ _

theorem eq_filterMap_of_map_some {α β : Type} (f : α → Option β) (l : List α) (t : List β)
    (h : t.map some = l.map f) : t = l.filterMap f := by
  have h1 : (t.map some).filterMap id = t := by
    rw [List.filterMap_map]
    exact List.filterMap_some t
  have h2 : (l.map f).filterMap id = l.filterMap f := by
    rw [List.filterMap_map]
    rfl
  rw [← h1, h, h2]

theorem static_revoke
    (groups : String → DescribeSecurityGroupsInput → DescribeSecurityGroupsOutput)
    (rules : String → DescribeSecurityGroupRulesInput → DescribeSecurityGroupRulesOutput)
    (region : String) (egress : Bool) (input : RevokeInput) (env : Unit) :
    ((Provider.static groups rules).revoke region egress input env).1 = .ok () := by
  cases egress <;> rfl

theorem static_rangeRules_ok
    (groups : String → DescribeSecurityGroupsInput → DescribeSecurityGroupsOutput)
    (rules : String → DescribeSecurityGroupRulesInput → DescribeSecurityGroupRulesOutput)
    (dryRun : Bool) (region g : String) (rs : List SecurityGroupRule) (env : Unit) (v : Vars)
    (h : ∀ r ∈ rs, r.SecurityGroupRuleId ≠ none) :
    (rangeRules (Provider.static groups rules) dryRun region g rs env v).status = .ok := by
  induction rs generalizing env v with
  | nil => rfl
  | cons r rest ih =>
    have hrest := fun env v => ih env v fun s hs => h s (List.mem_cons_of_mem _ hs)
    rw [rangeRules, Out.andThen_status]
    rcases ruleBody_cases (Provider.static groups rules) dryRun region g r env v with
      ⟨hnone, _⟩ | ⟨id, _, _, _, ⟨_, hs, _, _⟩ | ⟨_, hs, _, _⟩⟩
    · exact absurd hnone (h r (List.mem_cons_self _ _))
    · rw [hs, if_pos rfl]; exact hrest _ _
    · rw [static_revoke] at hs
      rw [hs]
      simpa [revokeStatus] using hrest _ _

theorem static_rulePage_trace
    (groups : String → DescribeSecurityGroupsInput → DescribeSecurityGroupsOutput)
    (rules : String → DescribeSecurityGroupRulesInput → DescribeSecurityGroupRulesOutput)
    (dryRun : Bool) (region g : String) (page : DescribeSecurityGroupRulesOutput)
    (env : Unit) (v : Vars) (h : ∀ r ∈ page.SecurityGroupRules, r.SecurityGroupRuleId ≠ none) :
    (rulePage (Provider.static groups rules) dryRun region g page env v).status = .ok ∧
    (rulePage (Provider.static groups rules) dryRun region g page env v).trace =
      iterationCalls dryRun region g page := by
  have hok := static_rangeRules_ok groups rules dryRun region g page.SecurityGroupRules env v h
  refine ⟨by rw [rulePage_status]; exact hok, ?_⟩
  rw [rulePage_trace, iterationCalls]
  congr 1
  cases dryRun with
  | true => exact (rangeRules_quiet _ true region g _ env v).2.2 rfl
  | false =>
    have := rangeRules_trace_ok _ region g _ env v hok
    simp only [Bool.false_eq_true, if_false]
    exact eq_filterMap_of_map_some _ _ _ this

theorem flatten_replicate_succ {α : Type} (k : Nat) (b : List α) :
    (List.replicate (k + 1) b).flatten = b ++ (List.replicate k b).flatten := by
  rw [List.replicate_succ, List.flatten_cons]

theorem count_flatten_replicate (k : Nat) (b : List Event) (ev : Event) :
    (List.replicate k b).flatten.count ev = k * b.count ev := by
  induction k with
  | zero => simp
  | succ k ih => rw [flatten_replicate_succ, List.count_append, ih]; ring

/-- Against a deterministic provider that never fails and whose first page of
rules for the group `g` carries a token, `k` iterations of the rule loop issue
the calls of one iteration `k` times over and the loop is still running. -/
theorem static_ruleLoop_trace
    (groups : String → DescribeSecurityGroupsInput → DescribeSecurityGroupsOutput)
    (rules : String → DescribeSecurityGroupRulesInput → DescribeSecurityGroupRulesOutput)
    (dryRun : Bool) (region g : String)
    (h : (rules region (rulesInput g none)).NextToken ≠ none)
    (hid : ∀ r ∈ (rules region (rulesInput g none)).SecurityGroupRules,
      r.SecurityGroupRuleId ≠ none)
    (k : Nat) (env : Unit) (v : Vars) :
    (ruleLoop (Provider.static groups rules) dryRun region g k env v).status = .outOfFuel ∧
    (ruleLoop (Provider.static groups rules) dryRun region g k env v).trace =
      (List.replicate k
        (iterationCalls dryRun region g (rules region (rulesInput g none)))).flatten := by
  induction k generalizing env v with
  | zero => exact ⟨rfl, rfl⟩
  | succ k ih =>
    obtain ⟨hs, ht⟩ := static_rulePage_trace groups rules dryRun region g
      (rules region (rulesInput g none)) env v hid
    rw [ruleLoop_succ_page _ dryRun region g k env v (rules region (rulesInput g none)) rfl,
      Out.andThen_status, Out.andThen_trace, flatten_replicate_succ]
    have hs' : (rulePage (Provider.static groups rules) dryRun region g
        (rules region (rulesInput g none))
        ((Provider.static groups rules).DescribeSecurityGroupRules region
          (rulesInput g none) env).2 v).status = .ok := hs
    have ht' : (rulePage (Provider.static groups rules) dryRun region g
        (rules region (rulesInput g none))
        ((Provider.static groups rules).DescribeSecurityGroupRules region
          (rulesInput g none) env).2 v).trace = _ := ht
    rw [hs', ht', if_pos rfl, if_pos rfl]
    cases hn : (rules region (rulesInput g none)).NextToken with
    | none => exact absurd hn h
    | some tok =>
      simp only
      exact ⟨(ih _ _).1, by rw [(ih _ _).2]⟩

/-- Against a deterministic provider that never fails and whose first page of
groups carries a token, `k` iterations of the group loop issue the same request
`k` times, collect the default groups of the page `k` times over, and the loop
is still running. -/
theorem static_groupLoop_trace
    (groups : String → DescribeSecurityGroupsInput → DescribeSecurityGroupsOutput)
    (rules : String → DescribeSecurityGroupRulesInput → DescribeSecurityGroupRulesOutput)
    (region : String)
    (h : (groups region { NextToken := none }).NextToken ≠ none)
    (hpop : ∀ sg ∈ (groups region { NextToken := none }).SecurityGroups,
      sg.GroupName ≠ none ∧ sg.GroupId ≠ none ∧ sg.VpcId ≠ none)
    (k : Nat) (env : Unit) (v : Vars) :
    (groupLoop (Provider.static groups rules) region k env v).status = .outOfFuel ∧
    (groupLoop (Provider.static groups rules) region k env v).trace =
      List.replicate k (.DescribeSecurityGroups region { NextToken := none }
        (.ok (groups region { NextToken := none }))) ∧
    (groupLoop (Provider.static groups rules) region k env v).vars.groupIDs.map some =
      v.groupIDs.map some ++ (List.replicate k
        (((groups region { NextToken := none }).SecurityGroups.filter
          SecurityGroup.isDefault).map (·.GroupId))).flatten := by
  induction k generalizing env v with
  | zero => exact ⟨rfl, rfl, by simp [groupLoop]⟩
  | succ k ih =>
    have hok : ∀ env v, (groupPage region (groups region { NextToken := none }) env v :
        Out Unit).status = .ok := by
      intro env v
      simp only [groupPage, Out.andThen_status, Out.call_status, if_true]
      exact rangeGroups_ok_of_populated _ _ _ hpop
    have htr : ∀ env v, (groupPage region (groups region { NextToken := none }) env v :
        Out Unit).trace = [.DescribeSecurityGroups region { NextToken := none }
          (.ok (groups region { NextToken := none }))] := by
      intro env v
      simp [groupPage, Out.andThen_trace, rangeGroups_trace]
    have hids : ∀ env v, (groupPage region (groups region { NextToken := none }) env v :
        Out Unit).vars.groupIDs.map some = v.groupIDs.map some ++
          ((groups region { NextToken := none }).SecurityGroups.filter
            SecurityGroup.isDefault).map (·.GroupId) := by
      intro env v
      obtain ⟨sc, _, hsc, hi⟩ :=
        rangeGroups_groupIDs (groups region { NextToken := none }).SecurityGroups env v
      have := rangeGroups_ok_of_populated (groups region { NextToken := none }).SecurityGroups
        env v hpop
      rw [hsc this] at hi
      simpa [groupPage, Out.andThen_vars] using hi
    rw [groupLoop_succ_page _ region k env v (groups region { NextToken := none }) rfl,
      Out.andThen_status, Out.andThen_trace, Out.andThen_vars, hok, htr, if_pos rfl,
      if_pos rfl, if_pos rfl, flatten_replicate_succ, List.replicate_succ]
    cases hn : (groups region { NextToken := none }).NextToken with
    | none => exact absurd hn h
    | some tok =>
      simp only
      refine ⟨(ih _ _).1, by rw [(ih _ _).2.1]; rfl, ?_⟩
      rw [(ih _ _).2.2, hids, List.append_assoc]

theorem countP_flatten_replicate (p : Event → Bool) (k : Nat) (b : List Event) :
    (List.replicate k b).flatten.countP p = k * b.countP p := by
  induction k with
  | zero => simp
  | succ k ih => rw [flatten_replicate_succ, List.countP_append, ih]; ring

theorem runInRegion_requestToken (P : Provider σ) (fuel : Nat) (dryRun : Bool)
    (region : String) (env : σ) :
    ∀ ev ∈ (runInRegion P fuel dryRun region env).trace, ev.requestToken = none := by
  intro ev hev
  rcases runInRegion_events P fuel dryRun region env ev hev with ⟨r, rfl⟩ | ⟨g, _, hg⟩
  · rfl
  · exact ruleEvent_requestToken hg

theorem samplePaged_groupStage (k : Nat) :
    (groupStage samplePaged (k + 1) "us-east-1" ()).status = .ok ∧
    (groupStage samplePaged (k + 1) "us-east-1" ()).env = () ∧
    (groupStage samplePaged (k + 1) "us-east-1" ()).vars =
      { groupIDs := ["sg-1"], ingressRuleIDs := [], egressRuleIDs := [] } ∧
    (groupStage samplePaged (k + 1) "us-east-1" ()).trace =
      [.DescribeSecurityGroups "us-east-1" { NextToken := none }
        (.ok (oneDefaultGroup "us-east-1" { NextToken := none }))] := by
  refine ⟨rfl, rfl, rfl, rfl⟩

/-! ## Runs without a failure and without a token -/

theorem ruleRequests_append (s t : List Event) :
    ruleRequests (s ++ t) = ruleRequests s ++ ruleRequests t := by
  induction s with
  | nil => rfl
  | cons ev s ih => cases ev <;> simp [ruleRequests, ih]

theorem ruleRequests_of_revokes {t : List Event} (h : ∀ ev ∈ t, ev.isRevoke = true) :
    ruleRequests t = [] := by
  induction t with
  | nil => rfl
  | cons ev t ih =>
    have hev := h ev (List.mem_cons_self _ _)
    have ht := ih fun e he => h e (List.mem_cons_of_mem _ he)
    cases ev <;> simp_all [Event.isRevoke, ruleRequests]

theorem ruleRequests_of_groupEvents {region : String} {t : List Event}
    (h : ∀ ev ∈ t, ∃ r, ev = .DescribeSecurityGroups region { NextToken := none } r) :
    ruleRequests t = [] := by
  induction t with
  | nil => rfl
  | cons ev t ih =>
    obtain ⟨r, rfl⟩ := h ev (List.mem_cons_self _ _)
    simpa [ruleRequests] using ih fun e he => h e (List.mem_cons_of_mem _ he)

theorem fatalExplained_andThen {a : Out σ} {k : σ → Vars → Out σ} (ha : FatalExplained a)
    (hk : ∀ env v, FatalExplained (k env v)) : FatalExplained (a.andThen k) := by
  by_cases hok : a.status = .ok
  · intro msg hmsg
    rw [Out.andThen_status, if_pos hok] at hmsg
    obtain ⟨ev, hev, hf⟩ := hk _ _ msg hmsg
    exact ⟨ev, by rw [Out.andThen_trace, if_pos hok]; exact List.mem_append_right _ hev, hf⟩
  · rw [Out.andThen_not_ok k hok]
    exact ha

theorem fatalExplained_of_status {o : Out σ} (h : ∀ msg, o.status ≠ .fatal msg) :
    FatalExplained o :=
  fun msg hmsg => absurd hmsg (h msg)

theorem ruleBody_fatalExplained (P : Provider σ) (dryRun : Bool) (region g : String)
    (rule : SecurityGroupRule) (env : σ) (v : Vars) :
    FatalExplained (ruleBody P dryRun region g rule env v) := by
  intro msg hmsg
  rcases ruleBody_cases P dryRun region g rule env v with
    ⟨_, hb⟩ | ⟨id, _, _, _, ⟨_, hs, _, _⟩ | ⟨_, hs, ht, _⟩⟩
  · rw [hb] at hmsg; simp at hmsg
  · rw [hs] at hmsg; cases hmsg
  · rw [hs] at hmsg
    rw [ht]
    refine ⟨_, List.mem_singleton.2 rfl, ?_⟩
    cases hr : (P.revoke region rule.isEgress (revokeInput g id) env).1 with
    | ok u => rw [hr] at hmsg; simp [revokeStatus] at hmsg
    | error err => cases rule.isEgress <;> rfl

theorem rangeRules_fatalExplained (P : Provider σ) (dryRun : Bool) (region g : String)
    (rules : List SecurityGroupRule) (env : σ) (v : Vars) :
    FatalExplained (rangeRules P dryRun region g rules env v) := by
  induction rules generalizing env v with
  | nil => exact fatalExplained_of_status (by simp [rangeRules])
  | cons rule rest ih =>
    rw [rangeRules]
    exact fatalExplained_andThen (ruleBody_fatalExplained P dryRun region g rule env v) ih

theorem rangeRules_not_outOfFuel (P : Provider σ) (dryRun : Bool) (region g : String)
    (rules : List SecurityGroupRule) (env : σ) (v : Vars) :
    (rangeRules P dryRun region g rules env v).status ≠ .outOfFuel := by
  induction rules generalizing env v with
  | nil => simp [rangeRules]
  | cons rule rest ih =>
    rw [rangeRules, Out.andThen_status]
    split
    · exact ih _ _
    · rcases ruleBody_cases P dryRun region g rule env v with
        ⟨_, hb⟩ | ⟨id, _, _, _, ⟨_, hs, _, _⟩ | ⟨_, hs, _, _⟩⟩
      · rw [hb]; simp
      · rw [hs]; simp
      · rw [hs]
        cases (P.revoke region rule.isEgress (revokeInput g id) env).1 <;> simp [revokeStatus]

theorem rulePage_fatalExplained (P : Provider σ) (dryRun : Bool) (region g : String)
    (rules : DescribeSecurityGroupRulesOutput) (env : σ) (v : Vars) :
    FatalExplained (rulePage P dryRun region g rules env v) :=
  fatalExplained_andThen (fatalExplained_of_status (by simp))
    (rangeRules_fatalExplained P dryRun region g _)

theorem ruleLoop_fatalExplained (P : Provider σ) (dryRun : Bool) (region g : String)
    (fuel : Nat) (env : σ) (v : Vars) :
    FatalExplained (ruleLoop P dryRun region g fuel env v) := by
  induction fuel generalizing env v with
  | zero => exact fatalExplained_of_status (by simp [ruleLoop])
  | succ fuel ih =>
    cases hr : (P.DescribeSecurityGroupRules region (rulesInput g none) env).1 with
    | error err =>
      rw [ruleLoop_succ_error P dryRun region g fuel env v err hr]
      intro msg _
      exact ⟨.DescribeSecurityGroupRules region (rulesInput g none) (.error err),
        by simp [Out.andThen_trace], rfl⟩
    | ok rules =>
      rw [ruleLoop_succ_page P dryRun region g fuel env v rules hr]
      apply fatalExplained_andThen (rulePage_fatalExplained P dryRun region g rules _ v)
      intro env w
      split
      · exact fatalExplained_of_status (by simp)
      · exact ih env w

theorem rangeGroupIDs_fatalExplained (P : Provider σ) (fuel : Nat) (dryRun : Bool)
    (region : String) (gs : List String) (env : σ) (v : Vars) :
    FatalExplained (rangeGroupIDs P fuel dryRun region gs env v) := by
  induction gs generalizing env v with
  | nil => exact fatalExplained_of_status (by simp [rangeGroupIDs])
  | cons g rest ih =>
    rw [rangeGroupIDs]
    exact fatalExplained_andThen (ruleLoop_fatalExplained P dryRun region g fuel env v) ih

theorem groupPage_status (region : String) (groups : DescribeSecurityGroupsOutput) (env : σ)
    (v : Vars) :
    (groupPage region groups env v).status = .ok ∨
      (groupPage region groups env v).status = .nilDeref := by
  simpa [groupPage, Out.andThen_status] using
    (rangeGroups_frame groups.SecurityGroups env v).2.2.2.2

theorem groupLoop_fatalExplained (P : Provider σ) (region : String) (fuel : Nat) (env : σ)
    (v : Vars) : FatalExplained (groupLoop P region fuel env v) := by
  induction fuel generalizing env v with
  | zero => exact fatalExplained_of_status (by simp [groupLoop])
  | succ fuel ih =>
    cases hr : (P.DescribeSecurityGroups region { NextToken := none } env).1 with
    | error err =>
      rw [groupLoop_succ_error P region fuel env v err hr]
      intro msg _
      exact ⟨.DescribeSecurityGroups region { NextToken := none } (.error err),
        by simp [Out.andThen_trace], rfl⟩
    | ok groups =>
      rw [groupLoop_succ_page P region fuel env v groups hr]
      apply fatalExplained_andThen
      · apply fatalExplained_of_status
        intro msg
        rcases groupPage_status region groups
          (P.DescribeSecurityGroups region { NextToken := none } env).2 v with h | h <;>
          rw [h] <;> simp
      · intro env w
        split
        · exact fatalExplained_of_status (by simp)
        · exact ih env w

/-- A rule loop that ran out of iterations had no iteration to run or got a
reply carrying a token. -/
theorem ruleLoop_outOfFuel (P : Provider σ) (dryRun : Bool) (region g : String)
    (fuel : Nat) (env : σ) (v : Vars)
    (h : (ruleLoop P dryRun region g fuel env v).status = .outOfFuel) :
    fuel = 0 ∨ ∃ ev ∈ (ruleLoop P dryRun region g fuel env v).trace, ev.replyToken ≠ none := by
  cases fuel with
  | zero => exact Or.inl rfl
  | succ fuel =>
    right
    cases hr : (P.DescribeSecurityGroupRules region (rulesInput g none) env).1 with
    | error err =>
      rw [ruleLoop_succ_error P dryRun region g fuel env v err hr] at h
      simp [Out.andThen_status] at h
    | ok rules =>
      rw [ruleLoop_succ_page P dryRun region g fuel env v rules hr] at h ⊢
      cases htok : rules.NextToken with
      | none =>
        exfalso
        rw [Out.andThen_status] at h
        split at h
        · simp [htok] at h
        · rw [rulePage_status] at h
          exact rangeRules_not_outOfFuel _ _ _ _ _ _ _ h
      | some tok =>
        refine ⟨.DescribeSecurityGroupRules region (rulesInput g none) (.ok rules), ?_, ?_⟩
        · rw [Out.andThen_trace, rulePage_trace]
          exact List.mem_append_left _ (List.mem_cons_self _ _)
        · simp [Event.replyToken, htok]

theorem rangeGroupIDs_outOfFuel (P : Provider σ) (fuel : Nat) (dryRun : Bool)
    (region : String) (gs : List String) (env : σ) (v : Vars)
    (h : (rangeGroupIDs P fuel dryRun region gs env v).status = .outOfFuel) :
    fuel = 0 ∨
      ∃ ev ∈ (rangeGroupIDs P fuel dryRun region gs env v).trace, ev.replyToken ≠ none := by
  induction gs generalizing env v with
  | nil => simp [rangeGroupIDs] at h
  | cons g rest ih =>
    rw [rangeGroupIDs] at h ⊢
    by_cases hok : (ruleLoop P dryRun region g fuel env v).status = .ok
    · rw [Out.andThen_status, if_pos hok] at h
      rcases ih _ _ h with h0 | ⟨ev, hev, ht⟩
      · exact Or.inl h0
      · refine Or.inr ⟨ev, ?_, ht⟩
        rw [Out.andThen_trace, if_pos hok]
        exact List.mem_append_right _ hev
    · rw [Out.andThen_not_ok _ hok] at h ⊢
      exact ruleLoop_outOfFuel P dryRun region g fuel env v h

theorem groupLoop_outOfFuel (P : Provider σ) (region : String) (fuel : Nat) (env : σ)
    (v : Vars) (h : (groupLoop P region fuel env v).status = .outOfFuel) :
    fuel = 0 ∨ ∃ ev ∈ (groupLoop P region fuel env v).trace, ev.replyToken ≠ none := by
  cases fuel with
  | zero => exact Or.inl rfl
  | succ fuel =>
    right
    cases hr : (P.DescribeSecurityGroups region { NextToken := none } env).1 with
    | error err =>
      rw [groupLoop_succ_error P region fuel env v err hr] at h
      simp [Out.andThen_status] at h
    | ok groups =>
      rw [groupLoop_succ_page P region fuel env v groups hr] at h ⊢
      cases htok : groups.NextToken with
      | none =>
        exfalso
        rw [Out.andThen_status] at h
        split at h
        · simp [htok] at h
        · rcases groupPage_status region groups
            (P.DescribeSecurityGroups region { NextToken := none } env).2 v with h1 | h1 <;>
            rw [h1] at h <;> cases h
      | some tok =>
        refine ⟨.DescribeSecurityGroups region { NextToken := none } (.ok groups), ?_, ?_⟩
        · rw [Out.andThen_trace]
          apply List.mem_append_left
          simp [groupPage, Out.andThen_trace]
        · simp [Event.replyToken, htok]

/-- A rule loop that ended normally without ever getting a token issued one
listing request. -/
theorem ruleLoop_requests (P : Provider σ) (dryRun : Bool) (region g : String)
    (fuel : Nat) (env : σ) (v : Vars)
    (hok : (ruleLoop P dryRun region g fuel env v).status = .ok)
    (htok : ∀ ev ∈ (ruleLoop P dryRun region g fuel env v).trace, ev.replyToken = none) :
    ruleRequests (ruleLoop P dryRun region g fuel env v).trace = [rulesInput g none] := by
  cases fuel with
  | zero => simp [ruleLoop] at hok
  | succ fuel =>
    cases hr : (P.DescribeSecurityGroupRules region (rulesInput g none) env).1 with
    | error err =>
      rw [ruleLoop_succ_error P dryRun region g fuel env v err hr] at hok
      simp [Out.andThen_status] at hok
    | ok rules =>
      rw [ruleLoop_succ_page P dryRun region g fuel env v rules hr] at hok htok ⊢
      have hnone : rules.NextToken = none := by
        have := htok (.DescribeSecurityGroupRules region (rulesInput g none) (.ok rules))
          (by rw [Out.andThen_trace, rulePage_trace]
              exact List.mem_append_left _ (List.mem_cons_self _ _))
        simpa [Event.replyToken] using this
      rw [Out.andThen_trace, rulePage_trace]
      have hq := (rangeRules_quiet P dryRun region g rules.SecurityGroupRules
        (P.DescribeSecurityGroupRules region (rulesInput g none) env).2 v).2.1
      simp only [hnone]
      split <;> simp [ruleRequests, ruleRequests_of_revokes hq]

theorem rangeGroupIDs_requests (P : Provider σ) (fuel : Nat) (dryRun : Bool)
    (region : String) (gs : List String) (env : σ) (v : Vars)
    (hok : (rangeGroupIDs P fuel dryRun region gs env v).status = .ok)
    (htok : ∀ ev ∈ (rangeGroupIDs P fuel dryRun region gs env v).trace,
      ev.replyToken = none) :
    ruleRequests (rangeGroupIDs P fuel dryRun region gs env v).trace =
      gs.map fun g => rulesInput g none := by
  induction gs generalizing env v with
  | nil => simp [rangeGroupIDs, ruleRequests]
  | cons g rest ih =>
    rw [rangeGroupIDs] at hok htok ⊢
    by_cases h0 : (ruleLoop P dryRun region g fuel env v).status = .ok
    · rw [Out.andThen_status, if_pos h0] at hok
      rw [Out.andThen_trace, if_pos h0] at htok ⊢
      rw [ruleRequests_append,
        ruleLoop_requests P dryRun region g fuel env v h0
          fun ev hev => htok ev (List.mem_append_left _ hev),
        ih _ _ hok fun ev hev => htok ev (List.mem_append_right _ hev)]
      rfl
    · rw [Out.andThen_not_ok _ h0] at hok
      exact absurd hok h0

/-! ## The bound on the loops is a cut-off -/

theorem Out.andThen_congr {a : Out σ} {k₁ k₂ : σ → Vars → Out σ}
    (h : a.status = .ok → k₁ a.env a.vars = k₂ a.env a.vars) :
    a.andThen k₁ = a.andThen k₂ := by
  by_cases hok : a.status = .ok
  · rw [Out.andThen_ok k₁ hok, Out.andThen_ok k₂ hok, h hok]
  · rw [Out.andThen_not_ok k₁ hok, Out.andThen_not_ok k₂ hok]

/-- More iterations do not change a rule loop that ended before its bound. -/
theorem ruleLoop_fuel_succ (P : Provider σ) (dryRun : Bool) (region g : String) (fuel : Nat)
    (env : σ) (v : Vars)
    (h : (ruleLoop P dryRun region g fuel env v).status ≠ .outOfFuel) :
    ruleLoop P dryRun region g (fuel + 1) env v = ruleLoop P dryRun region g fuel env v := by
  induction fuel generalizing env v with
  | zero => simp [ruleLoop] at h
  | succ fuel ih =>
    cases hr : (P.DescribeSecurityGroupRules region (rulesInput g none) env).1 with
    | error err =>
      rw [ruleLoop_succ_error P dryRun region g (fuel + 1) env v err hr,
        ruleLoop_succ_error P dryRun region g fuel env v err hr]
    | ok rules =>
      rw [ruleLoop_succ_page P dryRun region g fuel env v rules hr] at h
      rw [ruleLoop_succ_page P dryRun region g (fuel + 1) env v rules hr,
        ruleLoop_succ_page P dryRun region g fuel env v rules hr]
      apply Out.andThen_congr
      intro hok
      rw [Out.andThen_status, if_pos hok] at h
      cases htok : rules.NextToken with
      | none => rfl
      | some tok =>
        simp only [htok] at h ⊢
        exact ih _ _ h

theorem groupLoop_fuel_succ (P : Provider σ) (region : String) (fuel : Nat) (env : σ)
    (v : Vars) (h : (groupLoop P region fuel env v).status ≠ .outOfFuel) :
    groupLoop P region (fuel + 1) env v = groupLoop P region fuel env v := by
  induction fuel generalizing env v with
  | zero => simp [groupLoop] at h
  | succ fuel ih =>
    cases hr : (P.DescribeSecurityGroups region { NextToken := none } env).1 with
    | error err =>
      rw [groupLoop_succ_error P region (fuel + 1) env v err hr,
        groupLoop_succ_error P region fuel env v err hr]
    | ok groups =>
      rw [groupLoop_succ_page P region fuel env v groups hr] at h
      rw [groupLoop_succ_page P region (fuel + 1) env v groups hr,
        groupLoop_succ_page P region fuel env v groups hr]
      apply Out.andThen_congr
      intro hok
      rw [Out.andThen_status, if_pos hok] at h
      cases htok : groups.NextToken with
      | none => rfl
      | some tok =>
        simp only [htok] at h ⊢
        exact ih _ _ h

theorem rangeGroupIDs_fuel_succ (P : Provider σ) (fuel : Nat) (dryRun : Bool)
    (region : String) (gs : List String) (env : σ) (v : Vars)
    (h : (rangeGroupIDs P fuel dryRun region gs env v).status ≠ .outOfFuel) :
    rangeGroupIDs P (fuel + 1) dryRun region gs env v =
      rangeGroupIDs P fuel dryRun region gs env v := by
  induction gs generalizing env v with
  | nil => rfl
  | cons g rest ih =>
    rw [rangeGroupIDs] at h
    rw [rangeGroupIDs, rangeGroupIDs]
    have h0 : (ruleLoop P dryRun region g fuel env v).status ≠ .outOfFuel := by
      intro hc
      rw [Out.andThen_not_ok _ (by rw [hc]; simp)] at h
      exact h hc
    rw [ruleLoop_fuel_succ P dryRun region g fuel env v h0]
    apply Out.andThen_congr
    intro hok
    rw [Out.andThen_status, if_pos hok] at h
    exact ih _ _ h

theorem Out.andThen_stable {a a' : Out σ} {k k' : σ → Vars → Out σ}
    (ha : a.status ≠ .outOfFuel → a' = a)
    (hk : ∀ env v, (k env v).status ≠ .outOfFuel → k' env v = k env v)
    (h : (a.andThen k).status ≠ .outOfFuel) : a'.andThen k' = a.andThen k := by
  have h0 : a.status ≠ .outOfFuel := by
    intro hc
    rw [Out.andThen_not_ok _ (by rw [hc]; simp)] at h
    exact h hc
  rw [ha h0]
  apply Out.andThen_congr
  intro hok
  rw [Out.andThen_status, if_pos hok] at h
  exact hk _ _ h

/-- The bound on the loops is only a cut-off: a run of `runInRegion` that ended
before the bound is the same under a larger bound. -/
theorem runInRegion_fuel_succ (P : Provider σ) (fuel : Nat) (dryRun : Bool)
    (region : String) (env : σ)
    (h : (runInRegion P fuel dryRun region env).status ≠ .outOfFuel) :
    runInRegion P (fuel + 1) dryRun region env = runInRegion P fuel dryRun region env := by
  unfold runInRegion at h ⊢
  refine Out.andThen_stable (fun _ => rfl) ?_ h
  intro env v h
  dsimp only at h ⊢
  refine Out.andThen_stable (fun _ => rfl) ?_ h
  intro env v h
  refine Out.andThen_stable (groupLoop_fuel_succ P region fuel env v) ?_ h
  intro env v h
  exact Out.andThen_stable (rangeGroupIDs_fuel_succ P fuel dryRun region _ env v)
    (fun _ _ _ => rfl) h

theorem runInRegion_fuel_stable (P : Provider σ) (fuel : Nat) (dryRun : Bool)
    (region : String) (env : σ)
    (h : (runInRegion P fuel dryRun region env).status ≠ .outOfFuel) (more : Nat) :
    runInRegion P (fuel + more) dryRun region env = runInRegion P fuel dryRun region env := by
  induction more with
  | zero => rfl
  | succ more ih =>
    rw [← Nat.add_assoc, runInRegion_fuel_succ P (fuel + more) dryRun region env
      (by rw [ih]; exact h), ih]

/-- The same for `run`. -/
theorem run_fuel_succ (P : Provider σ) (fuel : Nat) (dryRun : Bool) (rs : List String)
    (env : σ) (h : (run P fuel dryRun rs env).status ≠ .outOfFuel) :
    run P (fuel + 1) dryRun rs env = run P fuel dryRun rs env := by
  induction rs generalizing env with
  | nil => rfl
  | cons region rest ih =>
    rw [run] at h
    rw [run, run]
    exact Out.andThen_stable (runInRegion_fuel_succ P fuel dryRun region env)
      (fun env _ h => ih env h) h

theorem Out.andThen_trace_mono {a a' : Out σ} {k k' : σ → Vars → Out σ}
    (ht : a.trace <+: a'.trace) (ha : a.status ≠ .outOfFuel → a' = a)
    (hk : ∀ env v, (k env v).trace <+: (k' env v).trace) :
    (a.andThen k).trace <+: (a'.andThen k').trace := by
  by_cases h0 : a.status = .outOfFuel
  · rw [Out.andThen_not_ok _ (by rw [h0]; simp), Out.andThen_trace]
    exact ht.trans (List.prefix_append _ _)
  · rw [ha h0, Out.andThen_trace, Out.andThen_trace]
    apply (List.prefix_append_right_inj _).2
    split
    · exact hk _ _
    · exact List.prefix_refl _

theorem ruleLoop_trace_mono (P : Provider σ) (dryRun : Bool) (region g : String) (fuel : Nat)
    (env : σ) (v : Vars) :
    (ruleLoop P dryRun region g fuel env v).trace <+:
      (ruleLoop P dryRun region g (fuel + 1) env v).trace := by
  induction fuel generalizing env v with
  | zero => exact List.nil_prefix
  | succ fuel ih =>
    cases hr : (P.DescribeSecurityGroupRules region (rulesInput g none) env).1 with
    | error err =>
      rw [ruleLoop_succ_error P dryRun region g (fuel + 1) env v err hr,
        ruleLoop_succ_error P dryRun region g fuel env v err hr]
    | ok rules =>
      rw [ruleLoop_succ_page P dryRun region g (fuel + 1) env v rules hr,
        ruleLoop_succ_page P dryRun region g fuel env v rules hr]
      apply Out.andThen_trace_mono (List.prefix_refl _) (fun _ => rfl)
      intro env v
      split
      · exact List.prefix_refl _
      · exact ih env v

theorem groupLoop_trace_mono (P : Provider σ) (region : String) (fuel : Nat) (env : σ)
    (v : Vars) :
    (groupLoop P region fuel env v).trace <+: (groupLoop P region (fuel + 1) env v).trace := by
  induction fuel generalizing env v with
  | zero => exact List.nil_prefix
  | succ fuel ih =>
    cases hr : (P.DescribeSecurityGroups region { NextToken := none } env).1 with
    | error err =>
      rw [groupLoop_succ_error P region (fuel + 1) env v err hr,
        groupLoop_succ_error P region fuel env v err hr]
    | ok groups =>
      rw [groupLoop_succ_page P region (fuel + 1) env v groups hr,
        groupLoop_succ_page P region fuel env v groups hr]
      apply Out.andThen_trace_mono (List.prefix_refl _) (fun _ => rfl)
      intro env v
      split
      · exact List.prefix_refl _
      · exact ih env v

theorem rangeGroupIDs_trace_mono (P : Provider σ) (fuel : Nat) (dryRun : Bool)
    (region : String) (gs : List String) (env : σ) (v : Vars) :
    (rangeGroupIDs P fuel dryRun region gs env v).trace <+:
      (rangeGroupIDs P (fuel + 1) dryRun region gs env v).trace := by
  induction gs generalizing env v with
  | nil => exact List.prefix_refl _
  | cons g rest ih =>
    rw [rangeGroupIDs, rangeGroupIDs]
    exact Out.andThen_trace_mono (ruleLoop_trace_mono P dryRun region g fuel env v)
      (ruleLoop_fuel_succ P dryRun region g fuel env v) ih

/-- A run cut off by the bound is a first part of the run under a larger bound:
the trace under `fuel` is a prefix of the trace under `fuel + 1`. -/
theorem runInRegion_trace_mono (P : Provider σ) (fuel : Nat) (dryRun : Bool)
    (region : String) (env : σ) :
    (runInRegion P fuel dryRun region env).trace <+:
      (runInRegion P (fuel + 1) dryRun region env).trace := by
  unfold runInRegion
  apply Out.andThen_trace_mono (List.prefix_refl _) (fun _ => rfl)
  intro env v
  dsimp only
  apply Out.andThen_trace_mono (List.prefix_refl _) (fun _ => rfl)
  intro env v
  apply Out.andThen_trace_mono (groupLoop_trace_mono P region fuel env v)
    (groupLoop_fuel_succ P region fuel env v)
  intro env v
  exact Out.andThen_trace_mono (rangeGroupIDs_trace_mono P fuel dryRun region _ env v)
    (rangeGroupIDs_fuel_succ P fuel dryRun region _ env v) fun _ _ => List.prefix_refl _

/-! ## The claims -/

/-- C1. Dry run issues no mutation: for every provider (any state type, any
replies, any number of pages), every region, every bound `fuel` on the
iterations of the loops and every `n`, the first `n` calls of the trace of
`runInRegion` with `dryRun = true` are all listing calls
(`DescribeSecurityGroups` or `DescribeSecurityGroupRules`) and none of them is a
`RevokeSecurityGroupIngress` or `RevokeSecurityGroupEgress` call. -/
theorem C1_dry_run_issues_no_mutation (P : Provider σ) (fuel : Nat) (region : String)
    (env : σ) (n : Nat) :
    ((runInRegion P fuel true region env).trace.take n).all Event.isListing = true ∧
    ((runInRegion P fuel true region env).trace.take n).any Event.isRevoke = false := by
  have h : ∀ ev ∈ (runInRegion P fuel true region env).trace.take n,
      ev.isListing = true ∧ ev.isRevoke = false := by
    intro ev hev
    rcases runInRegion_events P fuel true region env ev (List.mem_of_mem_take hev) with
      ⟨r, rfl⟩ | ⟨g, _, hg⟩
    · exact ⟨rfl, rfl⟩
    · exact ruleEvent_isListing_of_dryRun hg
  refine ⟨List.all_eq_true.2 fun ev hev => (h ev hev).1, ?_⟩
  rw [Bool.eq_false_iff]
  intro hany
  obtain ⟨ev, hev, hr⟩ := List.any_eq_true.1 hany
  rw [(h ev hev).2] at hr
  cases hr

/-- C2. One revoke per rule, by direction.  Take a run of `runInRegion` with
`dryRun = false` and at least one iteration allowed to each loop, in which the
configuration loads, no call fails, no listing reply carries a continuation
token and no nil pointer is dereferenced.  Then the run reaches its end, and
its revoke calls are, in order, exactly the successful revoke calls owed to the
rules returned by its rule listings, one per rule, in listing order and page
order: `RevokeSecurityGroupEgress` for a rule whose `IsEgress` flag is present
and true and `RevokeSecurityGroupIngress` otherwise, with the request
`{ GroupId := some g, SecurityGroupRuleIds := [id] }` where `g` is the group ID
the listing request filters on and `id` the ID of the rule (`owedRevokes`).
The rule listings are one per collected group, in the order of `groupIDs`, each
with the single filter `group-id = [g]` and no token, and `groupIDs` holds the
IDs of the listed groups named "default" in discovery order. -/
theorem C2_one_revoke_per_rule (P : Provider σ) (fuel : Nat) (region : String) (env : σ)
    (hfuel : 0 < fuel)
    (hcfg : (P.LoadDefaultConfig region env).1 = none)
    (hfail : ∀ ev ∈ (runInRegion P fuel false region env).trace, ev.failed = false)
    (htok : ∀ ev ∈ (runInRegion P fuel false region env).trace, ev.replyToken = none)
    (hnil : (runInRegion P fuel false region env).status ≠ .nilDeref) :
    (runInRegion P fuel false region env).status = .ok ∧
    ((runInRegion P fuel false region env).trace.filter Event.isRevoke).map some =
      owedRevokes (runInRegion P fuel false region env).trace ∧
    ruleRequests (runInRegion P fuel false region env).trace =
      (runInRegion P fuel false region env).vars.groupIDs.map
        (fun g => { Filters := [{ Name := some "group-id", Values := [g] }],
                    NextToken := none }) ∧
    (runInRegion P fuel false region env).vars.groupIDs.map some =
      ((listedGroups (runInRegion P fuel false region env).trace).filter
        fun sg => decide (sg.GroupName = some "default")).map (·.GroupId) := by
  have hG := groupStage_events P fuel region env
  have hok : (runInRegion P fuel false region env).status = .ok := by
    rcases runInRegion_cases P fuel false region env with
      ⟨_, hc, _⟩ | ⟨_, _, hs, ht, _⟩ | ⟨_, _, _, hs, ht, _⟩ | ⟨_, _, _, hs, _⟩
    · rw [hcfg] at hc; cases hc
    · cases hst : (runInRegion P fuel false region env).status with
      | ok => rfl
      | nilDeref => exact absurd hst hnil
      | fatal msg =>
        obtain ⟨ev, hev, hf⟩ := groupLoop_fatalExplained P region fuel _ _ msg (hs ▸ hst)
        rw [hfail ev (by rw [ht]; exact hev)] at hf
        cases hf
      | outOfFuel =>
        rcases groupLoop_outOfFuel P region fuel _ _ (hs ▸ hst) with h0 | ⟨ev, hev, hne⟩
        · omega
        · exact absurd (htok ev (by rw [ht]; exact hev)) hne
    · cases hst : (runInRegion P fuel false region env).status with
      | ok => rfl
      | nilDeref => exact absurd hst hnil
      | fatal msg =>
        obtain ⟨ev, hev, hf⟩ :=
          rangeGroupIDs_fatalExplained P fuel false region _ _ _ msg (hs ▸ hst)
        rw [hfail ev (by rw [ht]; exact List.mem_append_right _ hev)] at hf
        cases hf
      | outOfFuel =>
        rcases rangeGroupIDs_outOfFuel P fuel false region _ _ _ (hs ▸ hst) with
          h0 | ⟨ev, hev, hne⟩
        · omega
        · exact absurd (htok ev (by rw [ht]; exact List.mem_append_right _ hev)) hne
    · exact hs
  refine ⟨hok, (runInRegion_sound P fuel false region env).2.1 hok rfl, ?_, ?_⟩
  · rcases runInRegion_cases P fuel false region env with
      ⟨_, _, hs, _⟩ | ⟨_, hGn, hs, _⟩ | ⟨_, _, hRn, hs, _⟩ | ⟨_, _, hR, _, ht, _, hv⟩
    · rw [hs] at hok; cases hok
    · rw [hs] at hok; exact absurd hok hGn
    · rw [hs] at hok; exact absurd hok hRn
    · have hreq := rangeGroupIDs_requests P fuel false region _ _ _ hR
        fun ev hev => htok ev (by rw [ht]; exact List.mem_append_right _ hev)
      obtain ⟨_, _, _, hgid, _⟩ := (ruleStage_sound P fuel false region env).1
      rw [ht, ruleRequests_append, ruleRequests_of_groupEvents hG, List.nil_append, hv, hgid]
      exact hreq
  · obtain ⟨scanned, _, hall, hids, _⟩ := runInRegion_groupIDs P fuel false region env
    rw [hids, hall hnil]
    rfl

/-- Witness of C2: outside a dry run the sample region gets one revoke call per
rule of its default group, in page order and by direction, and none for the
three groups whose names only resemble "default".  The last part reads the
revoke calls straight off the trace: each request names the group "sg-1" and
holds the one-element list of the rule ID. -/
theorem C2_one_revoke_per_rule_witness :
    (0 < 1 ∧ (sampleSingle.LoadDefaultConfig "us-east-1" ()).1 = none ∧
      (∀ ev ∈ (runInRegion sampleSingle 1 false "us-east-1" ()).trace, ev.failed = false) ∧
      (∀ ev ∈ (runInRegion sampleSingle 1 false "us-east-1" ()).trace,
        ev.replyToken = none) ∧
      (runInRegion sampleSingle 1 false "us-east-1" ()).status ≠ .nilDeref) ∧
    (runInRegion sampleSingle 1 false "us-east-1" ()).status = .ok ∧
    ((runInRegion sampleSingle 1 false "us-east-1" ()).trace.filter Event.isRevoke).map some =
      [some (.RevokeSecurityGroupIngress "us-east-1"
        { GroupId := some "sg-1", SecurityGroupRuleIds := ["sgr-1"] } (.ok ())),
       some (.RevokeSecurityGroupEgress "us-east-1"
        { GroupId := some "sg-1", SecurityGroupRuleIds := ["sgr-2"] } (.ok ())),
       some (.RevokeSecurityGroupIngress "us-east-1"
        { GroupId := some "sg-1", SecurityGroupRuleIds := ["sgr-3"] } (.ok ()))] ∧
    ruleRequests (runInRegion sampleSingle 1 false "us-east-1" ()).trace =
      [{ Filters := [{ Name := some "group-id", Values := ["sg-1"] }], NextToken := none }] ∧
    (runInRegion sampleSingle 1 false "us-east-1" ()).trace.filter Event.isRevoke =
      [.RevokeSecurityGroupIngress "us-east-1"
        { GroupId := some "sg-1", SecurityGroupRuleIds := ["sgr-1"] } (.ok ()),
       .RevokeSecurityGroupEgress "us-east-1"
        { GroupId := some "sg-1", SecurityGroupRuleIds := ["sgr-2"] } (.ok ()),
       .RevokeSecurityGroupIngress "us-east-1"
        { GroupId := some "sg-1", SecurityGroupRuleIds := ["sgr-3"] } (.ok ())] :=
  ⟨⟨by decide, rfl, by decide, by decide, by decide⟩,
    (C2_one_revoke_per_rule sampleSingle 1 "us-east-1" () (by decide) rfl (by decide)
      (by decide) (by decide)).1,
    (C2_one_revoke_per_rule sampleSingle 1 "us-east-1" () (by decide) rfl (by decide)
      (by decide) (by decide)).2.1,
    (C2_one_revoke_per_rule sampleSingle 1 "us-east-1" () (by decide) rfl (by decide)
      (by decide) (by decide)).2.2.1,
    by decide⟩

/-- C4 on the code: against a provider whose groups come in two pages, `k`
iterations of the group loop issue `k` requests without a token, each answered
by the first page, and the loop is still running: the token "page-2" is never
sent and the second page never visited.  The rule loop does the same against a
provider whose rules come in two pages, revoking the two rules of the first
page again at each iteration. -/
theorem C4_pagination_refetches_first_page (k : Nat) :
    (groupLoop sampleTwoGroupPages "us-east-1" k ()
      { groupIDs := [], ingressRuleIDs := [], egressRuleIDs := [] }).status = .outOfFuel ∧
    (groupLoop sampleTwoGroupPages "us-east-1" k ()
      { groupIDs := [], ingressRuleIDs := [], egressRuleIDs := [] }).trace =
      List.replicate k (.DescribeSecurityGroups "us-east-1" { NextToken := none }
        (.ok { SecurityGroups := [⟨some "sg-1", some "default", some "vpc-1"⟩],
               NextToken := some "page-2" })) ∧
    (ruleLoop samplePaged false "us-east-1" "sg-1" k ()
      { groupIDs := ["sg-1"], ingressRuleIDs := [], egressRuleIDs := [] }).status =
        .outOfFuel ∧
    (ruleLoop samplePaged false "us-east-1" "sg-1" k ()
      { groupIDs := ["sg-1"], ingressRuleIDs := [], egressRuleIDs := [] }).trace =
      (List.replicate k
        [.DescribeSecurityGroupRules "us-east-1" (rulesInput "sg-1" none)
          (.ok { SecurityGroupRules := [⟨some "sgr-1", some false⟩, ⟨some "sgr-2", some false⟩],
                 NextToken := some "page-2" }),
         .RevokeSecurityGroupIngress "us-east-1" (revokeInput "sg-1" "sgr-1") (.ok ()),
         .RevokeSecurityGroupIngress "us-east-1" (revokeInput "sg-1" "sgr-2") (.ok ())]).flatten := by
  obtain ⟨h1, h2, _⟩ := static_groupLoop_trace twoPageGroups noRules "us-east-1" (by decide)
    (by decide) k () { groupIDs := [], ingressRuleIDs := [], egressRuleIDs := [] }
  obtain ⟨h3, h4⟩ := static_ruleLoop_trace oneDefaultGroup twoPageRules false "us-east-1" "sg-1"
    (by decide) (by decide) k () { groupIDs := ["sg-1"], ingressRuleIDs := [], egressRuleIDs := [] }
  exact ⟨h1, h2, h3, h4⟩

/-- C5 on the code: in the two-page scenario with `dryRun = false`, whatever
the bound `fuel` on the loops, `runInRegion` is still in the rule loop when the
bound is used up and has printed no summary line; it has issued `2 * fuel`
successful `RevokeSecurityGroupIngress` calls (the two rules of the first page,
once per iteration) and no `RevokeSecurityGroupEgress` call, and none of its
requests carried the token. -/
theorem C5_two_page_scenario_never_ends (fuel : Nat) :
    (runInRegion samplePaged fuel false "us-east-1" ()).status = .outOfFuel ∧
    (runInRegion samplePaged fuel false "us-east-1" ()).stdout = [] ∧
    ingressRevoked (runInRegion samplePaged fuel false "us-east-1" ()).trace = 2 * fuel ∧
    egressRevoked (runInRegion samplePaged fuel false "us-east-1" ()).trace = 0 ∧
    (runInRegion samplePaged fuel false "us-east-1" ()).trace.all
      (fun ev => ev.requestToken == none) = true := by
  have htok : (runInRegion samplePaged fuel false "us-east-1" ()).trace.all
      (fun ev => ev.requestToken == none) = true :=
    List.all_eq_true.2 fun ev hev => by
      rw [runInRegion_requestToken samplePaged fuel false "us-east-1" () ev hev]; rfl
  cases fuel with
  | zero => exact ⟨rfl, rfl, rfl, rfl, htok⟩
  | succ k =>
    obtain ⟨hGs, hGe, hGv, hGt⟩ := samplePaged_groupStage k
    obtain ⟨hLs, hLt⟩ := static_ruleLoop_trace oneDefaultGroup twoPageRules false "us-east-1"
      "sg-1" (by decide) (by decide) (k + 1) ()
      { groupIDs := ["sg-1"], ingressRuleIDs := [], egressRuleIDs := [] }
    have hR : ruleStage samplePaged (k + 1) false "us-east-1" () =
        ruleLoop samplePaged false "us-east-1" "sg-1" (k + 1) ()
          { groupIDs := ["sg-1"], ingressRuleIDs := [], egressRuleIDs := [] } := by
      rw [ruleStage, hGe, hGv, rangeGroupIDs]
      exact Out.andThen_not_ok _ (by rw [samplePaged, hLs]; simp)
    have hRs : (ruleStage samplePaged (k + 1) false "us-east-1" ()).status = .outOfFuel := by
      rw [hR]; exact hLs
    have hRt : (ruleStage samplePaged (k + 1) false "us-east-1" ()).trace =
        (List.replicate (k + 1) (iterationCalls false "us-east-1" "sg-1"
          (twoPageRules "us-east-1" (rulesInput "sg-1" none)))).flatten := by
      rw [hR]; exact hLt
    rcases runInRegion_cases samplePaged (k + 1) false "us-east-1" () with
      ⟨_, hc, _⟩ | ⟨_, hG, _⟩ | ⟨_, _, _, hs, ht, hso, _⟩ | ⟨_, _, hRok, _⟩
    · cases hc
    · exact absurd hGs hG
    · refine ⟨by rw [hs, hRs], hso, ?_, ?_, htok⟩
      · rw [ht, hGt, hRt, ingressRevoked, List.countP_append, countP_flatten_replicate]
        simp [iterationCalls, twoPageRules, oneDefaultGroup, owedRevoke, revokeEvent,
          rulesInput, SecurityGroupRule.isEgress, Event.isIngressRevoked, List.countP_cons]
        ring
      · rw [ht, hGt, hRt, egressRevoked, List.countP_append, countP_flatten_replicate]
        simp [iterationCalls, twoPageRules, oneDefaultGroup, owedRevoke, revokeEvent,
          rulesInput, SecurityGroupRule.isEgress, Event.isEgressRevoked, List.countP_cons]
    · rw [hRs] at hRok; cases hRok

/-- C6. Every error is terminal.  Let the regions before `region` have run
normally.  (1) If a call issued in `region` fails, it is the last call of the
region, and the whole run over `pre ++ region :: post` ends with the fatal
message of that call; its trace is the trace of the earlier regions followed by
the calls of `region` up to and including the failing one, unchanged (nothing
rolled back, nothing retried, nothing issued for the regions of `post`); and
its output is the output of the earlier regions: no summary line for `region`.
(2) If loading the configuration of `region` fails, the run ends with that
error and neither issues a call nor prints a line for `region` or for the
regions after it. -/
theorem C6_every_error_is_terminal (P : Provider σ) (fuel : Nat) (dryRun : Bool)
    (pre : List String) (region : String) (post : List String) (env : σ)
    (hpre : (run P fuel dryRun pre env).status = .ok) :
    (∀ before ev after,
      (runInRegion P fuel dryRun region (run P fuel dryRun pre env).env).trace =
        before ++ ev :: after →
      ev.failed = true →
        after = [] ∧
        (run P fuel dryRun (pre ++ region :: post) env).status = .fatal ev.fatalMsg ∧
        (run P fuel dryRun (pre ++ region :: post) env).trace =
          (run P fuel dryRun pre env).trace ++ before ++ [ev] ∧
        (run P fuel dryRun (pre ++ region :: post) env).stdout =
          (run P fuel dryRun pre env).stdout) ∧
    (∀ err, (P.LoadDefaultConfig region (run P fuel dryRun pre env).env).1 = some err →
      (run P fuel dryRun (pre ++ region :: post) env).status =
        .fatal ("unable to load SDK config: " ++ err) ∧
      (run P fuel dryRun (pre ++ region :: post) env).trace = (run P fuel dryRun pre env).trace ∧
      (run P fuel dryRun (pre ++ region :: post) env).stdout =
        (run P fuel dryRun pre env).stdout) := by
  constructor
  · intro before ev after htr hev
    obtain ⟨hafter, hst⟩ := runInRegion_failLast P fuel dryRun region _ before ev after htr hev
    have hbad : (runInRegion P fuel dryRun region (run P fuel dryRun pre env).env).status ≠
        .ok := by rw [hst]; simp
    obtain ⟨h1, h2, h3⟩ := run_stops P fuel dryRun pre region post env hpre hbad
    refine ⟨hafter, by rw [h1, hst], ?_, ?_⟩
    · rw [h2, htr, hafter, List.append_assoc]
    · rw [h3, runInRegion_stdout_of_not_ok P fuel dryRun region _ hbad, List.append_nil]
  · intro err herr
    rcases runInRegion_cases P fuel dryRun region (run P fuel dryRun pre env).env with
      ⟨err', hc, hs, ht, hso, _⟩ | ⟨hc, _⟩ | ⟨hc, _⟩ | ⟨hc, _⟩
    · rw [herr] at hc
      cases hc
      have hbad : (runInRegion P fuel dryRun region (run P fuel dryRun pre env).env).status ≠
          .ok := by rw [hs]; simp
      obtain ⟨h1, h2, h3⟩ := run_stops P fuel dryRun pre region post env hpre hbad
      exact ⟨by rw [h1, hs], by rw [h2, ht, List.append_nil], by rw [h3, hso, List.append_nil]⟩
    · rw [herr] at hc; cases hc
    · rw [herr] at hc; cases hc
    · rw [herr] at hc; cases hc

/-- Witness of C6: the first region runs normally, the egress revoke of the
second region fails after its ingress revoke succeeded, and the run over the
three regions of `main` ends there. -/
theorem C6_every_error_is_terminal_witness :
    (run sampleFailing 1 false ["us-east-1"] 0).status = .ok ∧
    (run sampleFailing 1 false regions 0).status =
      .fatal "error deleting rule: RequestLimitExceeded\n" ∧
    (run sampleFailing 1 false regions 0).trace =
      (run sampleFailing 1 false ["us-east-1"] 0).trace ++ sampleFailingBefore ++
        [sampleFailingCall] ∧
    (run sampleFailing 1 false regions 0).stdout =
      ["Revoked 1 ingress and 1 egress rules in region us-east-1...\n"] :=
  ⟨by decide,
    ((C6_every_error_is_terminal sampleFailing 1 false ["us-east-1"] "eu-west-1" ["eu-west-2"] 0
      (by decide)).1 sampleFailingBefore sampleFailingCall [] (by decide) (by decide)).2.1,
    ((C6_every_error_is_terminal sampleFailing 1 false ["us-east-1"] "eu-west-1" ["eu-west-2"] 0
      (by decide)).1 sampleFailingBefore sampleFailingCall [] (by decide) (by decide)).2.2.1,
    ((C6_every_error_is_terminal sampleFailing 1 false ["us-east-1"] "eu-west-1" ["eu-west-2"] 0
      (by decide)).1 sampleFailingBefore sampleFailingCall [] (by decide) (by decide)).2.2.2⟩

/-- Counterexample to C7 as stated: in a dry run over the sample region the
summary line reports 2 ingress and 1 egress rules while no revoke call was
issued, let alone succeeded. -/
theorem C7_counterexample :
    (runInRegion sampleSingle 1 true "us-east-1" ()).status = .ok ∧
    (runInRegion sampleSingle 1 true "us-east-1" ()).stdout =
      ["Revoked 2 ingress and 1 egress rules in region us-east-1...\n"] ∧
    ingressRevoked (runInRegion sampleSingle 1 true "us-east-1" ()).trace = 0 ∧
    egressRevoked (runInRegion sampleSingle 1 true "us-east-1" ()).trace = 0 ∧
    (runInRegion sampleSingle 1 true "us-east-1" ()).trace.any Event.isRevoke = false := by
  decide

/-- C7 as amended. When `runInRegion` reaches its summary line, the two numbers
printed are the numbers of ingress and of egress rules returned by the rule
listings of the region (the lengths of `ingressRuleIDs` and `egressRuleIDs`).
With `dryRun = false` they are also the numbers of `RevokeSecurityGroupIngress`
and `RevokeSecurityGroupEgress` calls that were issued and succeeded; with
`dryRun = true` no revoke call succeeded at all. -/
theorem C7_summary_counts_listed_rules (P : Provider σ) (fuel : Nat) (dryRun : Bool)
    (region : String) (env : σ)
    (hok : (runInRegion P fuel dryRun region env).status = .ok) :
    (runInRegion P fuel dryRun region env).stdout =
      [summaryLine
        ((listedRules (runInRegion P fuel dryRun region env).trace).countP
          fun r => r.isEgress == false)
        ((listedRules (runInRegion P fuel dryRun region env).trace).countP
          fun r => r.isEgress == true) region] ∧
    (dryRun = false →
      ingressRevoked (runInRegion P fuel dryRun region env).trace =
        (listedRules (runInRegion P fuel dryRun region env).trace).countP
          (fun r => r.isEgress == false) ∧
      egressRevoked (runInRegion P fuel dryRun region env).trace =
        (listedRules (runInRegion P fuel dryRun region env).trace).countP
          (fun r => r.isEgress == true)) ∧
    (dryRun = true →
      ingressRevoked (runInRegion P fuel dryRun region env).trace = 0 ∧
      egressRevoked (runInRegion P fuel dryRun region env).trace = 0) := by
  obtain ⟨⟨processed, _, hall, hi, he⟩, _, hcnt⟩ := runInRegion_sound P fuel dryRun region env
  have hp := hall hok
  subst hp
  have h1 := congrArg List.length hi
  have h2 := congrArg List.length he
  simp only [List.length_map, ruleIDs] at h1 h2
  simp only [List.countP_eq_length_filter]
  refine ⟨?_, ?_, ?_⟩
  · rcases runInRegion_cases P fuel dryRun region env with
      ⟨_, _, hs, _⟩ | ⟨_, hG, hs, _⟩ | ⟨_, _, hR, hs, _⟩ | ⟨_, _, _, _, _, hso, hv⟩
    · rw [hs] at hok; cases hok
    · rw [hs] at hok; exact absurd hok hG
    · rw [hs] at hok; exact absurd hok hR
    · rw [hso, ← hv, h1, h2]
  · intro hd
    obtain ⟨c1, c2⟩ := hcnt hok hd
    simp only [List.length_nil, Nat.zero_add] at c1 c2
    exact ⟨by rw [← c1, h1], by rw [← c2, h2]⟩
  · intro hd
    subst hd
    have hev' : ∀ ev ∈ (runInRegion P fuel true region env).trace,
        ev.isIngressRevoked = false ∧ ev.isEgressRevoked = false := by
      intro ev hev
      rcases runInRegion_events P fuel true region env ev hev with ⟨r, rfl⟩ | ⟨g, _, hg⟩
      · exact ⟨rfl, rfl⟩
      · cases hg with
        | rules r => exact ⟨rfl, rfl⟩
        | ingress h => cases h
        | egress h => cases h
    constructor
    · exact List.countP_eq_zero.2 fun ev hev => by simp [(hev' ev hev).1]
    · exact List.countP_eq_zero.2 fun ev hev => by simp [(hev' ev hev).2]

/-- Witness of C7 as amended: outside a dry run over the sample region the
summary line reports 2 and 1, the numbers of successful revoke calls. -/
theorem C7_summary_counts_listed_rules_witness :
    (runInRegion sampleSingle 1 false "us-east-1" ()).status = .ok ∧
    (runInRegion sampleSingle 1 false "us-east-1" ()).stdout =
      ["Revoked 2 ingress and 1 egress rules in region us-east-1...\n"] ∧
    ingressRevoked (runInRegion sampleSingle 1 false "us-east-1" ()).trace = 2 ∧
    egressRevoked (runInRegion sampleSingle 1 false "us-east-1" ()).trace = 1 :=
  ⟨by decide,
    (C7_summary_counts_listed_rules sampleSingle 1 false "us-east-1" () (by decide)).1,
    ((C7_summary_counts_listed_rules sampleSingle 1 false "us-east-1" () (by decide)).2.1
      rfl).1,
    ((C7_summary_counts_listed_rules sampleSingle 1 false "us-east-1" () (by decide)).2.1
      rfl).2⟩

/-- C8. No default group, nothing done: when no group returned by the group
listings of a run of `runInRegion` is named "default" (an empty listing
included), then, for both values of `dryRun`, every call of the run is a
`DescribeSecurityGroups` call (so there is no `DescribeSecurityGroupRules` call
and no revoke call); if the run reaches its end the summary line reports 0
ingress and 0 egress rules; and it does reach its end as soon as the
configuration loads and the group loop ends normally. -/
theorem C8_no_default_group_nothing_done (P : Provider σ) (fuel : Nat) (dryRun : Bool)
    (region : String) (env : σ)
    (hnone : ∀ sg ∈ listedGroups (runInRegion P fuel dryRun region env).trace,
      sg.GroupName ≠ some "default") :
    (∀ ev ∈ (runInRegion P fuel dryRun region env).trace,
      ∃ r, ev = .DescribeSecurityGroups region { NextToken := none } r) ∧
    ((runInRegion P fuel dryRun region env).status = .ok →
      (runInRegion P fuel dryRun region env).stdout = [summaryLine 0 0 region]) ∧
    ((P.LoadDefaultConfig region env).1 = none →
      (groupLoop P region fuel (P.LoadDefaultConfig region env).2
        { groupIDs := [], ingressRuleIDs := [], egressRuleIDs := [] }).status = .ok →
      (runInRegion P fuel dryRun region env).status = .ok ∧
      (runInRegion P fuel dryRun region env).stdout = [summaryLine 0 0 region]) := by
  obtain ⟨⟨scanned, hpre, _, hids⟩, hGi, hGe, _⟩ := groupStage_scanned P fuel region env
  have hGev := groupStage_events P fuel region env
  -- once the group loop has run, it has collected no group ID
  have hempty : (listedGroups (groupStage P fuel region env).trace ⊆
      listedGroups (runInRegion P fuel dryRun region env).trace) →
      (groupStage P fuel region env).vars.groupIDs = [] := by
    intro hsub
    have hf : scanned.filter SecurityGroup.isDefault = [] := by
      apply List.filter_eq_nil_iff.2
      intro sg hsg
      simpa [SecurityGroup.isDefault] using hnone sg (hsub (hpre.subset hsg))
    rw [hf] at hids
    simpa using hids
  have hR : (groupStage P fuel region env).vars.groupIDs = [] →
      ruleStage P fuel dryRun region env =
        Out.ret (groupStage P fuel region env).env (groupStage P fuel region env).vars := by
    intro h
    rw [ruleStage, h, rangeGroupIDs]
  rcases runInRegion_cases P fuel dryRun region env with
    ⟨err, hc, hs, ht, _⟩ | ⟨hc, hG, hs, ht, _⟩ | ⟨hc, hG, hRs, hs, ht, _⟩ |
    ⟨hc, hG, hRs, hs, ht, hso, _⟩
  · refine ⟨by rw [ht]; simp, by rw [hs]; simp, ?_⟩
    intro h; rw [hc] at h; cases h
  · refine ⟨by rw [ht]; exact hGev, by rw [hs]; exact fun h => absurd h hG, ?_⟩
    intro _ h; exact absurd h hG
  · have := hR (hempty (by rw [ht, listedGroups_append]; exact List.subset_append_left _ _))
    rw [this] at hRs
    simp at hRs
  · have hR' := hR (hempty (by rw [ht, listedGroups_append]; exact List.subset_append_left _ _))
    have hso' : (runInRegion P fuel dryRun region env).stdout = [summaryLine 0 0 region] := by
      rw [hso, hR', Out.ret_vars, hGi, hGe]; rfl
    refine ⟨?_, fun _ => hso', fun _ _ => ⟨hs, hso'⟩⟩
    rw [ht, hR', Out.ret_trace, List.append_nil]
    exact hGev

/-- Witness of C8: the sample region without a default group, where the run
prints a summary line reporting 0 and 0. -/
theorem C8_no_default_group_nothing_done_witness :
    (∀ sg ∈ listedGroups (runInRegion sampleNoDefault 1 false "us-east-1" ()).trace,
      sg.GroupName ≠ some "default") ∧
    (runInRegion sampleNoDefault 1 false "us-east-1" ()).status = .ok ∧
    (runInRegion sampleNoDefault 1 false "us-east-1" ()).stdout =
      ["Revoked 0 ingress and 0 egress rules in region us-east-1...\n"] ∧
    (runInRegion sampleNoDefault 1 false "us-east-1" ()).trace.length = 1 :=
  ⟨by decide,
    ((C8_no_default_group_nothing_done sampleNoDefault 1 false "us-east-1" ()
      (by decide)).2.2 rfl (by decide)).1,
    ((C8_no_default_group_nothing_done sampleNoDefault 1 false "us-east-1" ()
      (by decide)).2.2 rfl (by decide)).2,
    by decide⟩

/-- C9. The ingress and egress lists partition the rules processed: whatever the
provider, the bound on the loops and the way the run ends, the rules processed
by `runInRegion` are a first part of the rules returned by the rule listings of
the trace (all of them when the run reaches its end); `ingressRuleIDs` holds,
in order, the IDs of the processed rules whose `IsEgress` flag is nil or false
and `egressRuleIDs` the IDs of those whose flag is present and true, so the two
lengths add up to the number of rules processed; when the IDs of the listed
rules are pairwise distinct no ID is in both lists.  The last part states the
step itself: the body of the rule loop appends the ID of its rule to the
egress list exactly when the flag is present and true, and to the ingress list
otherwise. -/
theorem C9_ingress_egress_partition (P : Provider σ) (fuel : Nat) (dryRun : Bool)
    (region : String) (env : σ) :
    (∃ processed : List SecurityGroupRule,
      processed <+: listedRules (runInRegion P fuel dryRun region env).trace ∧
      ((runInRegion P fuel dryRun region env).status = .ok →
        processed = listedRules (runInRegion P fuel dryRun region env).trace) ∧
      (runInRegion P fuel dryRun region env).vars.ingressRuleIDs.map some =
        (processed.filter fun r => r.isEgress == false).map (·.SecurityGroupRuleId) ∧
      (runInRegion P fuel dryRun region env).vars.egressRuleIDs.map some =
        (processed.filter fun r => r.isEgress == true).map (·.SecurityGroupRuleId) ∧
      (runInRegion P fuel dryRun region env).vars.ingressRuleIDs.length +
        (runInRegion P fuel dryRun region env).vars.egressRuleIDs.length = processed.length ∧
      (((listedRules (runInRegion P fuel dryRun region env).trace).map
          (·.SecurityGroupRuleId)).Nodup →
        ∀ id ∈ (runInRegion P fuel dryRun region env).vars.ingressRuleIDs,
          id ∉ (runInRegion P fuel dryRun region env).vars.egressRuleIDs)) ∧
    ∀ (g : String) (rule : SecurityGroupRule) (id : String) (env₁ : σ) (v : Vars),
      rule.SecurityGroupRuleId = some id →
        (ruleBody P dryRun region g rule env₁ v).vars =
          if rule.IsEgress = some true then
            { v with egressRuleIDs := v.egressRuleIDs ++ [id] }
          else { v with ingressRuleIDs := v.ingressRuleIDs ++ [id] } := by
  constructor
  · obtain ⟨⟨processed, hpre, hall, hi, he⟩, _, _⟩ := runInRegion_sound P fuel dryRun region env
    refine ⟨processed, hpre, hall, hi, he, ?_, ?_⟩
    · have h1 := congrArg List.length hi
      have h2 := congrArg List.length he
      simp only [List.length_map] at h1 h2
      have := ruleIDs_length_add processed
      rw [← hi, ← he] at this
      simpa using this
    · intro hnd id hid hid'
      obtain ⟨rest, hrest⟩ := hpre
      rw [← hrest, List.map_append] at hnd
      have hnd' := (List.nodup_append.1 hnd).1
      have h1 : some id ∈ ruleIDs false processed := by
        rw [← hi]; exact List.mem_map_of_mem _ hid
      have h2 : some id ∈ ruleIDs true processed := by
        rw [← he]; exact List.mem_map_of_mem _ hid'
      exact ruleIDs_disjoint processed hnd' _ h1 h2
  · intro g rule id env₁ v hid
    rcases ruleBody_cases P dryRun region g rule env₁ v with
      ⟨hnone, _⟩ | ⟨id', hid', hv, _⟩
    · rw [hid] at hnone; cases hnone
    · rw [hid] at hid'
      cases hid'
      rw [hv]
      by_cases h : rule.IsEgress = some true <;>
        simp [Vars.push, SecurityGroupRule.isEgress, h]

/-- C10. Listing requests never carry a continuation token, so a first page
with a token is fetched again for ever.  (1) Whatever the provider, every call
of `runInRegion` has a nil `NextToken` in its request.  (2) Against a
deterministic provider that never fails and whose first page of groups carries
a token, `runInRegion` never reaches its summary line, whatever the bound on
the loops; and when the groups of that page have their fields, `k` iterations
of the group loop issue `k` identical requests, collect the default groups of
the page `k` times over, and the loop is still running.  (3) Against such a
provider whose first page of rules of the group `g` carries a token,
`runInRegion` never reaches its summary line when `g` is the ID of a default
group of the first page of groups; and when the rules of that page have their
IDs, `k` iterations of the rule loop of `g` issue `k` times the calls of one
iteration (the same listing request followed, outside a dry run, by one revoke
call per rule of the page), so with `dryRun = false` the revoke call of each
rule of the page occurs at least `k` times, and the loop is still running. -/
theorem C10_listing_requests_never_carry_a_token (P : Provider σ) (fuel : Nat)
    (dryRun : Bool) (region : String) (env : σ)
    (groups : String → DescribeSecurityGroupsInput → DescribeSecurityGroupsOutput)
    (rules : String → DescribeSecurityGroupRulesInput → DescribeSecurityGroupRulesOutput)
    (g : String) (k : Nat) (v : Vars) :
    (∀ ev ∈ (runInRegion P fuel dryRun region env).trace, ev.requestToken = none) ∧
    ((groups region { NextToken := none }).NextToken ≠ none →
      (runInRegion (Provider.static groups rules) fuel dryRun region ()).status ≠ .ok ∧
      (runInRegion (Provider.static groups rules) fuel dryRun region ()).stdout = [] ∧
      ((∀ sg ∈ (groups region { NextToken := none }).SecurityGroups,
          sg.GroupName ≠ none ∧ sg.GroupId ≠ none ∧ sg.VpcId ≠ none) →
        (groupLoop (Provider.static groups rules) region k () v).status = .outOfFuel ∧
        (groupLoop (Provider.static groups rules) region k () v).trace =
          List.replicate k (.DescribeSecurityGroups region { NextToken := none }
            (.ok (groups region { NextToken := none }))) ∧
        (groupLoop (Provider.static groups rules) region k () v).vars.groupIDs.map some =
          v.groupIDs.map some ++ (List.replicate k
            (((groups region { NextToken := none }).SecurityGroups.filter
              fun sg => decide (sg.GroupName = some "default")).map (·.GroupId))).flatten)) ∧
    ((rules region (rulesInput g none)).NextToken ≠ none →
      ((∃ sg ∈ (groups region { NextToken := none }).SecurityGroups,
          sg.GroupName = some "default" ∧ sg.GroupId = some g) →
        (runInRegion (Provider.static groups rules) fuel dryRun region ()).status ≠ .ok ∧
        (runInRegion (Provider.static groups rules) fuel dryRun region ()).stdout = []) ∧
      ((∀ r ∈ (rules region (rulesInput g none)).SecurityGroupRules,
          r.SecurityGroupRuleId ≠ none) →
        (ruleLoop (Provider.static groups rules) dryRun region g k () v).status = .outOfFuel ∧
        (ruleLoop (Provider.static groups rules) dryRun region g k () v).trace =
          (List.replicate k
            (iterationCalls dryRun region g (rules region (rulesInput g none)))).flatten ∧
        (dryRun = false → ∀ rule ∈ (rules region (rulesInput g none)).SecurityGroupRules,
          ∀ ev, owedRevoke region g rule = some ev →
            k ≤ (ruleLoop (Provider.static groups rules) dryRun region g k () v).trace.count
              ev))) := by
  refine ⟨runInRegion_requestToken P fuel dryRun region env, ?_, ?_⟩
  · intro h
    obtain ⟨h1, h2⟩ := static_runInRegion_never_ok groups rules fuel dryRun region (Or.inl h)
    exact ⟨h1, h2, fun hpop => static_groupLoop_trace groups rules region h hpop k () v⟩
  · intro h
    refine ⟨fun hsg => static_runInRegion_never_ok groups rules fuel dryRun region
      (Or.inr ⟨g, h, hsg⟩), fun hid => ?_⟩
    obtain ⟨h1, h2⟩ := static_ruleLoop_trace groups rules dryRun region g h hid k () v
    refine ⟨h1, h2, ?_⟩
    intro hd rule hrule ev hev
    rw [h2, count_flatten_replicate]
    have hmem : ev ∈ iterationCalls dryRun region g (rules region (rulesInput g none)) := by
      subst hd
      simp only [iterationCalls, Bool.false_eq_true, if_false]
      exact List.mem_cons_of_mem _ (List.mem_filterMap.2 ⟨rule, hrule, hev⟩)
    have := List.count_pos_iff.2 hmem
    exact Nat.le_mul_of_pos_right k this
end Tightener
